import Mathlib

/-!
Verification of the `rawpy` output module (`plaso/output/rawpy.py`).

The module has two operations:

* `NativePythonEventFormattingHelper.GetFieldValues` — collects a flat
  field mapping (a Python `dict[str, object]`) from an event record, its
  event data, optional event data stream and optional event tag.
* `NativePythonOutputModule.WriteFieldValues` — renders that mapping into
  a sectioned plain-text report.

This file gives a shallow embedding of both operations together with the
Python-level value model (dynamic attribute values, tuple comparison as
used by `sorted`, UTF-8 decoding with the `replace` error handler,
`str.format` semantics for the format codes used by the source).

External collaborators that are not part of the repository source
(`dfdatetime` timestamp conversion, the attribute-container identifier
type, `definitions.RESERVED_VARIABLE_NAMES`, the dynamic field formatting
helper used as a fallback field resolver, the logging side channel) are
modelled from the specification, as noted on each definition.
-/

namespace Plaso

/-! ## Python ordering on characters and strings

Python compares strings lexicographically by Unicode code point.  We model
this on `List Char` so that every comparison is a structural computation.
-/

/-- Comparison of two characters by code point, as Python compares the
characters of a string. -/
def charCompare (a b : Char) : Ordering :=
  if a.toNat < b.toNat then .lt else if b.toNat < a.toNat then .gt else .eq

/-- Lexicographic comparison of two character lists by code point. -/
def charListCompare : List Char → List Char → Ordering
  | [], [] => .eq
  | [], _ :: _ => .lt
  | _ :: _, [] => .gt
  | a :: as, b :: bs =>
    match charCompare a b with
    | .eq => charListCompare as bs
    | o => o

/-- Python string comparison: lexicographic by code point. -/
def pyStrCompare (s t : String) : Ordering :=
  charListCompare s.data t.data

/-- Boolean `s <= t` under Python string comparison. -/
def pyStrLe (s t : String) : Bool :=
  match pyStrCompare s t with
  | .gt => false
  | _ => true

/-! ## Dynamic attribute values

`AttrValue` is the sealed model of the dynamic Python values that can be
carried by an event-data or event-data-stream attribute, exactly the kinds
the source discriminates with `isinstance`:

* `str`, `int` — plain scalars;
* `bytes` — a byte sequence (each element `< 256` in the intended use);
* `identifier` — an `AttributeContainerIdentifier` (opaque; the `Nat` tag
  models object identity, as the external class defines no ordering);
* `dateTime` — a `dfdatetime` `DateTimeValues` instance (opaque payload);
* `pathspec` — a dfVFS path specification, carrying its `comparable`
  multi-line string, the only part the source reads;
* `vlist` — a Python `list` of such values.
-/

inductive AttrValue where
  | str (s : String)
  | int (n : Int)
  | bytes (b : List Nat)
  | identifier (tag : Nat)
  | dateTime (tag : Int)
  | pathspec (comparable : String)
  | vlist (xs : List AttrValue)

/-- Lexicographic comparison of two byte sequences, as Python compares
`bytes` values. -/
def natListCompare : List Nat → List Nat → Ordering
  | [], [] => .eq
  | [], _ :: _ => .lt
  | _ :: _, [] => .gt
  | a :: as, b :: bs =>
    if a < b then .lt else if b < a then .gt else natListCompare as bs

/-! Python comparison of attribute values, as performed by tuple comparison
inside `sorted(event_attributes)`.  `none` models a `TypeError`: Python
raises when `<` is applied to unrelated types, and objects without an
ordering (`AttributeContainerIdentifier`, `PathSpec`) compare only for
equality (identity or structural), never for order. -/

mutual

/-- Python comparison of two attribute values; `none` is a `TypeError`. -/
def pyCompareAttr : AttrValue → AttrValue → Option Ordering
  | .str a, .str b => some (pyStrCompare a b)
  | .int a, .int b => some (compare a b)
  | .bytes a, .bytes b => some (natListCompare a b)
  | .identifier a, .identifier b => if a = b then some .eq else none
  | .dateTime a, .dateTime b => some (compare a b)
  | .pathspec a, .pathspec b => if a = b then some .eq else none
  | .vlist a, .vlist b => pyCompareAttrList a b
  | _, _ => none

/-- Python comparison of two lists of attribute values (lexicographic,
first differing element decides; order failure on that element is a
`TypeError`). -/
def pyCompareAttrList : List AttrValue → List AttrValue → Option Ordering
  | [], [] => some .eq
  | [], _ :: _ => some .lt
  | _ :: _, [] => some .gt
  | a :: as, b :: bs =>
    match pyCompareAttr a b with
    | none => none
    | some .eq => pyCompareAttrList as bs
    | some o => some o

end

/-! ## Python `str()` / `repr()` of attribute values

`WriteFieldValues` renders each attribute value with `'{1!s}'.format(...)`,
i.e. `str()`.  `str()` of a `list` uses `repr()` of the elements.  The
functions below model this.  For the opaque object kinds (`identifier`,
`dateTime`, `pathspec`) CPython would print a class-and-address form; we
use a deterministic placeholder built from the object's payload, which no
claim depends on.  For `repr()` of a string we model the common case
(single-quoted, escaping backslash, quote and the C0 whitespace escapes);
CPython's preference for double quotes when the text contains a single
quote but no double quote (for both `str` and `bytes`), and
`\xHH`/`\uXXXX` escapes of non-printable characters, are not modelled —
the source never compares these strings. -/

/-- Hexadecimal digit (lowercase), for byte escapes. -/
def hexDigit (n : Nat) : String :=
  match n with
  | 0 => "0" | 1 => "1" | 2 => "2" | 3 => "3" | 4 => "4"
  | 5 => "5" | 6 => "6" | 7 => "7" | 8 => "8" | 9 => "9"
  | 10 => "a" | 11 => "b" | 12 => "c" | 13 => "d" | 14 => "e"
  | _ => "f"

/-- Escape of one byte inside a Python `bytes` repr. -/
def byteReprEscape (b : Nat) : String :=
  if b = 92 then "\\\\"
  else if b = 39 then "\\\x27"
  else if b = 9 then "\\t"
  else if b = 10 then "\\n"
  else if b = 13 then "\\r"
  else if 32 ≤ b && b ≤ 126 then String.singleton (Char.ofNat b)
  else "\\x" ++ hexDigit (b / 16 % 16) ++ hexDigit (b % 16)

/-- Join a list of strings with a separator, as Python `sep.join(...)`. -/
def joinWith (sep : String) : List String → String
  | [] => ""
  | [x] => x
  | x :: y :: xs => x ++ sep ++ joinWith sep (y :: xs)

/-- Python `repr()` of a `bytes` value (also its `str()`). -/
def pyReprBytes (bs : List Nat) : String :=
  "b\x27" ++ joinWith "" (bs.map byteReprEscape) ++ "\x27"

/-- Escape of one character inside a Python single-quoted string repr. -/
def pyReprCharEscape (c : Char) : String :=
  if c = Char.ofNat 92 then "\\\\"
  else if c = Char.ofNat 39 then "\\\x27"
  else if c = Char.ofNat 10 then "\\n"
  else if c = Char.ofNat 13 then "\\r"
  else if c = Char.ofNat 9 then "\\t"
  else String.singleton c

/-- Python `repr()` of a string (modelled single-quoted form). -/
def pyReprStr (s : String) : String :=
  "\x27" ++ joinWith "" (s.data.map pyReprCharEscape) ++ "\x27"

mutual

/-- Python `str()` of an attribute value, as applied by the `!s`
conversion in `'  {{{0!s}}} {1!s}'.format(...)`. -/
def pyStrAttr : AttrValue → String
  | .str s => s
  | .int n => toString n
  | .bytes bs => pyReprBytes bs
  | .identifier tag => "AttributeContainerIdentifier(" ++ toString tag ++ ")"
  | .dateTime tag => "DateTimeValues(" ++ toString tag ++ ")"
  | .pathspec _ => "PathSpec()"
  | .vlist xs => "[" ++ pyReprAttrList xs ++ "]"

/-- Python `repr()` of an attribute value (used for list elements). -/
def pyReprAttr : AttrValue → String
  | .str s => pyReprStr s
  | .int n => toString n
  | .bytes bs => pyReprBytes bs
  | .identifier tag => "AttributeContainerIdentifier(" ++ toString tag ++ ")"
  | .dateTime tag => "DateTimeValues(" ++ toString tag ++ ")"
  | .pathspec _ => "PathSpec()"
  | .vlist xs => "[" ++ pyReprAttrList xs ++ "]"

/-- Comma-joined `repr()`s of the elements of a Python list. -/
def pyReprAttrList : List AttrValue → String
  | [] => ""
  | [x] => pyReprAttr x
  | x :: y :: xs => pyReprAttr x ++ ", " ++ pyReprAttrList (y :: xs)

end

/-! ## Field mapping values

A value stored in the field mapping (`dict[str, object]`) is either an
attribute value (including the strings the collector itself stores) or
the raw label list stored under `'_event_tag_labels'`. -/

inductive FieldValue where
  | attr (v : AttrValue)
  | labels (ls : List String)

/-- Python `str()` of a field-mapping value. -/
def pyStrFieldValue : FieldValue → String
  | .attr v => pyStrAttr v
  | .labels ls => "[" ++ joinWith ", " (ls.map pyReprStr) ++ "]"

/-- Python truthiness of an attribute value (`if value:`). -/
def pyTruthyAttr : AttrValue → Bool
  | .str s => !s.isEmpty
  | .int n => n != 0
  | .bytes bs => !bs.isEmpty
  | .identifier _ => true
  | .dateTime _ => true
  | .pathspec _ => true
  | .vlist xs => !xs.isEmpty

/-- Python truthiness of a field-mapping value. -/
def pyTruthyFieldValue : FieldValue → Bool
  | .attr v => pyTruthyAttr v
  | .labels ls => !ls.isEmpty

/-- Python `'{0:s}'.format(v)`: succeeds exactly on `str` values, raising
`TypeError` (here `none`) for every other kind, including objects whose
default `__format__` rejects a non-empty format spec. -/
def pyFormatS : FieldValue → Option String
  | .attr (.str s) => some s
  | _ => none

/-- The string payload of an attribute value, when it is a `str`. -/
def attrAsStr : AttrValue → Option String
  | .str s => some s
  | _ => none

/-- Python iteration over the `'_event_tag_labels'` value followed by
`'\x27{0:s}\x27'.format(label)` on each element: yields the list of label
strings, or `none` when iteration or formatting raises (non-iterable
value, or an element that is not a `str`).  Iterating a string yields its
one-character substrings. -/
def pyIterLabels : FieldValue → Option (List String)
  | .labels ls => some ls
  | .attr (.str s) => some (s.data.map String.singleton)
  | .attr (.vlist xs) => xs.mapM attrAsStr
  | _ => none

/-- Python `s.split('\n')`: split on every newline, keeping empty pieces;
the result is never empty. -/
def splitLinesAux (cur : List Char) : List Char → List String
  | [] => [String.mk cur.reverse]
  | c :: cs =>
    if c = Char.ofNat 10 then String.mk cur.reverse :: splitLinesAux [] cs
    else splitLinesAux (c :: cur) cs

/-- Python `s.split('\n')`. -/
def pySplitLines (s : String) : List String :=
  splitLinesAux [] s.data

/-! ## UTF-8 decoding with the `replace` error handler

Models Python `bytes.decode('utf-8', 'replace')` (the Python runtime, not
repository code): every maximal invalid prefix — a stray byte, an invalid
leading byte, or a truncated/broken multi-byte sequence — is replaced by
one U+FFFD replacement character and decoding resumes at the first byte
that did not extend the sequence.  Overlong encodings, surrogate code
points (lead `0xED` with a second byte above `0x9F`) and values above
U+10FFFF are invalid, as in CPython's decoder. -/

/-- A UTF-8 continuation byte. -/
def isCont (b : Nat) : Bool := 128 ≤ b && b ≤ 191

/-- The U+FFFD replacement character. -/
def replacementChar : Char := Char.ofNat 0xFFFD

/-- Valid second byte for a three-byte sequence with lead `b1`. -/
def utf8Cont3Ok (b1 b2 : Nat) : Bool :=
  if b1 = 224 then 160 ≤ b2 && b2 ≤ 191
  else if b1 = 237 then 128 ≤ b2 && b2 ≤ 159
  else isCont b2

/-- Valid second byte for a four-byte sequence with lead `b1`. -/
def utf8Cont4Ok (b1 b2 : Nat) : Bool :=
  if b1 = 240 then 144 ≤ b2 && b2 ≤ 191
  else if b1 = 244 then 128 ≤ b2 && b2 ≤ 143
  else isCont b2

/-- UTF-8 decoding with replacement, producing the character list. -/
def utf8DecodeReplaceAux : List Nat → List Char
  | [] => []
  | b1 :: rest =>
    if b1 < 128 then Char.ofNat b1 :: utf8DecodeReplaceAux rest
    else if 194 ≤ b1 && b1 ≤ 223 then
      match h2 : rest with
      | [] => [replacementChar]
      | b2 :: rest2 =>
        if isCont b2 then
          Char.ofNat ((b1 - 192) * 64 + (b2 - 128)) :: utf8DecodeReplaceAux rest2
        else replacementChar :: utf8DecodeReplaceAux rest
    else if 224 ≤ b1 && b1 ≤ 239 then
      match h2 : rest with
      | [] => [replacementChar]
      | b2 :: rest2 =>
        if utf8Cont3Ok b1 b2 then
          match h3 : rest2 with
          | [] => [replacementChar]
          | b3 :: rest3 =>
            if isCont b3 then
              Char.ofNat ((b1 - 224) * 4096 + (b2 - 128) * 64 + (b3 - 128)) ::
                utf8DecodeReplaceAux rest3
            else replacementChar :: utf8DecodeReplaceAux rest2
        else replacementChar :: utf8DecodeReplaceAux rest
    else if 240 ≤ b1 && b1 ≤ 244 then
      match h2 : rest with
      | [] => [replacementChar]
      | b2 :: rest2 =>
        if utf8Cont4Ok b1 b2 then
          match h3 : rest2 with
          | [] => [replacementChar]
          | b3 :: rest3 =>
            if isCont b3 then
              match h4 : rest3 with
              | [] => [replacementChar]
              | b4 :: rest4 =>
                if isCont b4 then
                  Char.ofNat
                      ((b1 - 240) * 262144 + (b2 - 128) * 4096 + (b3 - 128) * 64 + (b4 - 128)) ::
                    utf8DecodeReplaceAux rest4
                else replacementChar :: utf8DecodeReplaceAux rest3
            else replacementChar :: utf8DecodeReplaceAux rest2
        else replacementChar :: utf8DecodeReplaceAux rest
    else replacementChar :: utf8DecodeReplaceAux rest
termination_by l => l.length
decreasing_by all_goals (simp_all; try omega)

/-- Python `attribute_value.decode('utf-8', 'replace')`. -/
def utf8DecodeReplace (bs : List Nat) : String :=
  String.mk (utf8DecodeReplaceAux bs)

/-- The UTF-8 encoding of one character (specification side, for stating
that valid UTF-8 byte sequences decode losslessly). -/
def utf8EncodeChar (c : Char) : List Nat :=
  let v := c.toNat
  if v < 128 then [v]
  else if v < 2048 then [192 + v / 64, 128 + v % 64]
  else if v < 65536 then [224 + v / 4096, 128 + v / 64 % 64, 128 + v % 64]
  else [240 + v / 262144, 128 + v / 4096 % 64, 128 + v / 64 % 64, 128 + v % 64]

/-- The UTF-8 encoding of a string. -/
def utf8Encode (s : String) : List Nat :=
  (s.data.map utf8EncodeChar).flatten

/-! ## ISO-8601 timestamp materialization

`GetFieldValues` computes
`PosixTimeInMicroseconds(timestamp=event.timestamp).CopyToDateTimeStringISO8601()`.
The `dfdatetime` library is external to the repository, so the conversion
is modelled from the spec. -/

/-- Proleptic Gregorian date from a count of days since 1970-01-01
(standard civil-from-days algorithm): `(year, month, day)`. -/
def civilFromDays (days : Int) : Int × Nat × Nat :=
  let z := days + 719468
  let era : Int := z.fdiv 146097
  let doe : Nat := (z - era * 146097).toNat
  let yoe : Nat := (doe - doe / 1460 + doe / 36524 - doe / 146096) / 365
  let doy : Nat := doe - (365 * yoe + yoe / 4 - yoe / 100)
  let mp : Nat := (5 * doy + 2) / 153
  let d : Nat := doy - (153 * mp + 2) / 5 + 1
  let m : Nat := if mp < 10 then mp + 3 else mp - 9
  let y : Int := era * 400 + yoe
  (if m ≤ 2 then y + 1 else y, m, d)

/-- Decimal rendering of a natural number, zero-padded to a width. -/
def padNat (width n : Nat) : String :=
  let s := toString n
  joinWith "" (List.replicate (width - s.length) "0") ++ s

/-- Modelled from the spec: the record's integer timestamp (POSIX epoch
microseconds) is converted "to an ISO-8601 string with microsecond
precision", UTC-normalized (suffix `+00:00`); this is
`dfdatetime.posix_time.PosixTimeInMicroseconds.CopyToDateTimeStringISO8601`,
which is external to the repository.  `none` models a timestamp that
cannot be materialized (a missing timestamp); per the spec that failure is
fatal for the collector.  Negative-year dates are outside the modelled
range (the payload formats the year as a nonnegative number). -/
def copyToDateTimeStringISO8601 : Option Int → Option String
  | none => none
  | some ts =>
    let micro := (ts.fmod 1000000).toNat
    let totalSeconds := ts.fdiv 1000000
    let days := totalSeconds.fdiv 86400
    let sod := (totalSeconds.fmod 86400).toNat
    let ymd := civilFromDays days
    some (padNat 4 ymd.1.toNat ++ "-" ++ padNat 2 ymd.2.1 ++ "-" ++ padNat 2 ymd.2.2 ++ "T" ++
      padNat 2 (sod / 3600) ++ ":" ++ padNat 2 (sod % 3600 / 60) ++ ":" ++
      padNat 2 (sod % 60) ++ "." ++ padNat 6 micro ++ "+00:00")

/-! ## The data model

`EventRecord`, `EventData`, `EventDataStream` and `EventTag` carry exactly
what `GetFieldValues` reads from the storage containers:

* `event.GetIdentifier().CopyToString()` — modelled by
  `EventRecord.identifier`, `none` standing for an identifier that cannot
  be materialized (fatal per the spec; the container classes are external
  to the repository);
* `event.timestamp` — an optional integer (POSIX epoch microseconds);
* `event_data.data_type` and `event_data.GetAttributes()` — the data-type
  string and the raw attribute pairs, in container order;
* `event_data_stream.GetAttributes()` — the stream's attribute pairs;
* `event_tag.labels` — the tag's label strings.
-/

structure EventRecord where
  identifier : Option String
  timestamp : Option Int

structure EventData where
  data_type : String
  attributes : List (String × AttrValue)

structure EventDataStream where
  attributes : List (String × AttrValue)

structure EventTag where
  labels : List String

/-! ## Python dict model

The field mapping is a Python `dict[str, object]`: insertion-ordered
association list with unique keys.  `dictSet` models `d[key] = value`
(overwrite in place when the key exists, append otherwise), so a mapping
built through `dictSet` keeps its keys unique. -/

/-- The field mapping: a Python `dict[str, object]` as an
insertion-ordered association list (unique keys by construction). -/
abbrev FieldMapping : Type := List (String × FieldValue)

/-- `field_values[key] = value`. -/
def dictSet (fv : FieldMapping) (key : String) (value : FieldValue) : FieldMapping :=
  if (List.any fv fun p => p.1 == key) then
    List.map (fun p => if p.1 == key then (p.1, value) else p) fv
  else fv ++ [(key, value)]

/-- `key in field_values`. -/
def dictContains (fv : FieldMapping) (key : String) : Bool :=
  List.any fv fun p => p.1 == key

/-- `field_values.get(key, None)` (and `field_values[key]`, with `none`
for the `KeyError`). -/
def dictGet (fv : FieldMapping) (key : String) : Option FieldValue :=
  (List.find? (fun p => p.1 == key) fv).map fun p => p.2

/-! ## Python `sorted` on attribute pairs

`sorted(event_attributes)` sorts `(attribute_name, attribute_value)`
tuples.  Python tuple comparison compares the names and, when the names
are equal, compares the values — which raises `TypeError` when the two
values admit no order.  We model `sorted` as a stable insertion sort with
this partial comparator, failing (`none`) when a needed comparison fails.
On inputs all of whose equal-name value pairs are mutually comparable
this computes exactly CPython's (unique) stable sort; for inputs where an
incomparable equal-name pair occurs CPython's Timsort performs the same
adjacent comparisons on the two-element collisions that arise here. -/

/-- Python comparison of two `(name, value)` tuples. -/
def pyComparePair (a b : String × AttrValue) : Option Ordering :=
  match pyStrCompare a.1 b.1 with
  | .eq => pyCompareAttr a.2 b.2
  | o => some o

/-- Stable insertion of a pair into a sorted list under the partial
tuple comparison; `none` is a `TypeError`. -/
def insertSortedP (x : String × AttrValue) :
    List (String × AttrValue) → Option (List (String × AttrValue))
  | [] => some [x]
  | y :: ys =>
    match pyComparePair x y with
    | none => none
    | some .lt => some (x :: y :: ys)
    | some _ =>
      match insertSortedP x ys with
      | none => none
      | some zs => some (y :: zs)

/-- Worker for `pySortedPairs`. -/
def pySortedPairsAux : List (String × AttrValue) → List (String × AttrValue) →
    Option (List (String × AttrValue))
  | acc, [] => some acc
  | acc, x :: xs =>
    match insertSortedP x acc with
    | none => none
    | some acc2 => pySortedPairsAux acc2 xs

/-- Python `sorted(event_attributes)`. -/
def pySortedPairs (l : List (String × AttrValue)) : Option (List (String × AttrValue)) :=
  pySortedPairsAux [] l

/-! ## The collector: `NativePythonEventFormattingHelper.GetFieldValues` -/

/-- The ways `GetFieldValues` can raise: the record's identifier or
timestamp cannot be materialized (fatal per the spec), or
`sorted(event_attributes)` raises `TypeError` on incomparable same-name
values. -/
inductive CollectError where
  | identifierError
  | timestampError
  | typeError
deriving DecidableEq

/-- One warning event emitted through the logging side channel for a
bytes-valued attribute: the attribute name, the event data's data type
and the recovered (decoded) value — the three arguments of the
`logger.warning` format string. -/
structure Warning where
  attributeName : String
  dataType : String
  value : String

/-- The formatted text of the warning, as `logger.warning` renders it. -/
def warningMessage (w : Warning) : String :=
  "Found bytes value for attribute \"" ++ w.attributeName ++ "\" for data type: " ++
    w.dataType ++ ". Value was converted to UTF-8: \"" ++ w.value ++ "\""

/-- The result of a successful `GetFieldValues` call: the field mapping,
the warning events emitted while processing attributes, and the field
names for which the fallback resolver was invoked (in call order). -/
structure CollectResult where
  fieldValues : FieldMapping
  warnings : List Warning
  fallbackCalls : List String

/-- The `isinstance` filter of the attribute loop: attribute container
identifiers, date-time values, and non-empty lists whose first element is
a date-time value are skipped. -/
def isSkippedValue : AttrValue → Bool
  | .identifier _ => true
  | .dateTime _ => true
  | .vlist (.dateTime _ :: _) => true
  | _ => false

/-- The attribute loop of `GetFieldValues`: for each `(name, value)` pair
in sorted order, skip excluded kinds, decode bytes values (emitting one
warning through the logging side channel), and store the value under its
attribute name. -/
def processAttributes (dataType : String) :
    List (String × AttrValue) → FieldMapping → List Warning → FieldMapping × List Warning
  | [], fv, ws => (fv, ws)
  | (name, value) :: rest, fv, ws =>
    if isSkippedValue value then processAttributes dataType rest fv ws
    else
      match value with
      | .bytes bs =>
        processAttributes dataType rest
          (dictSet fv name (.attr (.str (utf8DecodeReplace bs))))
          (ws ++ [⟨name, dataType, utf8DecodeReplace bs⟩])
      | _ => processAttributes dataType rest (dictSet fv name (.attr value)) ws

/-- Modelled from the spec: the fallback field resolver capability
(`DynamicFieldFormattingHelper.GetFormattedField` behind the output
mediator, external to the repository):
`Resolve(record, eventData, eventDataStream, tag, fieldName) -> string`,
total, returning a display string (possibly empty). -/
def FallbackFieldResolver : Type :=
  EventRecord → EventData → Option EventDataStream → Option EventTag → String → String

/-- `event_attributes = list(event_data.GetAttributes())`, extended by
`event_data_stream.GetAttributes()` when a stream is present. -/
def combinedAttributes (eventData : EventData)
    (eventDataStream : Option EventDataStream) : List (String × AttrValue) :=
  eventData.attributes ++
    (match eventDataStream with
     | some stream => stream.attributes
     | none => [])

/-- One fallback block of `GetFieldValues`:
`if field_name not in field_values: field_values[field_name] =
self._field_formatting_helper.GetFormattedField(...)`, threading the list
of field names for which the resolver was invoked. -/
def fallbackStep (resolver : FallbackFieldResolver) (event : EventRecord)
    (eventData : EventData) (eventDataStream : Option EventDataStream)
    (eventTag : Option EventTag) (pr : FieldMapping × List String)
    (fieldName : String) : FieldMapping × List String :=
  if dictContains pr.1 fieldName then pr
  else
    (dictSet pr.1 fieldName
      (.attr (.str (resolver event eventData eventDataStream eventTag fieldName))),
     pr.2 ++ [fieldName])

/-- `NativePythonEventFormattingHelper.GetFieldValues`. -/
def GetFieldValues (resolver : FallbackFieldResolver) (event : EventRecord)
    (eventData : EventData) (eventDataStream : Option EventDataStream)
    (eventTag : Option EventTag) : Except CollectError CollectResult :=
  match event.identifier with
  | none => .error .identifierError
  | some eventIdentifierString =>
    match copyToDateTimeStringISO8601 event.timestamp with
    | none => .error .timestampError
    | some dateTimeString =>
      let fieldValues : FieldMapping :=
        [("_event_identifier", .attr (.str eventIdentifierString)),
         ("_timestamp", .attr (.str dateTimeString))]
      match pySortedPairs (combinedAttributes eventData eventDataStream) with
      | none => .error .typeError
      | some sortedAttributes =>
        let processed := processAttributes eventData.data_type sortedAttributes fieldValues []
        let afterFallbacks :=
          fallbackStep resolver event eventData eventDataStream eventTag
            (fallbackStep resolver event eventData eventDataStream eventTag
              (fallbackStep resolver event eventData eventDataStream eventTag
                (processed.1, []) "display_name")
              "filename")
            "inode"
        let finalFieldValues :=
          match eventTag with
          | some tag => dictSet afterFallbacks.1 "_event_tag_labels" (.labels tag.labels)
          | none => afterFallbacks.1
        .ok ⟨finalFieldValues, processed.2, afterFallbacks.2⟩

/-! ## The renderer: `NativePythonOutputModule.WriteFieldValues` -/

/-- The four structural keys the attribute loop skips. -/
def structuralKeys : List String :=
  ["_event_identifier", "_event_tag_labels", "_timestamp", "path_spec"]

/-- One attribute line: `'  {{{0!s}}} {1!s}'.format(field_name, field_value)`
(two spaces, the name in braces, a space, the value's `str()`). -/
def fieldLine (name : String) (value : FieldValue) : String :=
  "  \x7b" ++ name ++ "\x7d " ++ pyStrFieldValue value

/-- The attribute loop of `WriteFieldValues`: walk the sorted items,
skip the structural keys, and append each field line to the reserved or
the additional list according to `RESERVED_VARIABLE_NAMES` membership. -/
def buildAttributeLists (reservedVariableNames : List String) :
    List (String × FieldValue) → List String × List String → List String × List String
  | [], acc => acc
  | (name, value) :: rest, acc =>
    if structuralKeys.contains name then
      buildAttributeLists reservedVariableNames rest acc
    else
      if reservedVariableNames.contains name then
        buildAttributeLists reservedVariableNames rest (acc.1 ++ [fieldLine name value], acc.2)
      else
        buildAttributeLists reservedVariableNames rest (acc.1, acc.2 ++ [fieldLine name value])

/-- The separator line `'+-' * 40`. -/
def separatorLine : String :=
  joinWith "" (List.replicate 40 "+-")

/-- Key order for `sorted(field_values.items())`. -/
def leName (a b : String × FieldValue) : Prop :=
  pyStrLe a.1 b.1 = true

instance : DecidableRel leName :=
  fun _ _ => inferInstanceAs (Decidable (_ = true))

/-- `sorted(field_values.items())`.  Python compares the items as tuples,
but a dict's keys are unique, so the comparison never reaches the values;
sorting by key alone is exact for every mapping with unique keys. -/
def sortedItems (fv : FieldMapping) : List (String × FieldValue) :=
  List.insertionSort leName fv

/-- The `[Pathspec]:` block of `WriteFieldValues`: given `lines_of_text`
so far, extend it with the section and apply the trailing
`lines_of_text.pop()`; `none` models the `AttributeError` raised by
`.comparable` on a truthy value that is not a path specification.  When
the value is absent or falsy, `lines_of_text` is returned unchanged. -/
def pathspecLines (fieldValues : FieldMapping) (linesOfText : List String) :
    Option (List String) :=
  match dictGet fieldValues "path_spec" with
  | some pathSpecification =>
    if pyTruthyFieldValue pathSpecification then
      match pathSpecification with
      | .attr (.pathspec comparable) =>
        some ((linesOfText ++ ["", "[Pathspec]:"] ++
          (pySplitLines comparable).map (fun line => "  " ++ line)).dropLast)
      | _ => none
    else some linesOfText
  | none => some linesOfText

/-- The `[Tag]:` block of `WriteFieldValues`: the lines it appends (empty
when the label value is absent or falsy); `none` models an exception from
iterating or formatting the label value. -/
def tagSuffix (fieldValues : FieldMapping) : Option (List String) :=
  match dictGet fieldValues "_event_tag_labels" with
  | some eventTagLabels =>
    if pyTruthyFieldValue eventTagLabels then
      match pyIterLabels eventTagLabels with
      | none => none
      | some labelStrings =>
        some ["", "[Tag]:",
          "  \x7blabels\x7d [" ++
            joinWith ", " (labelStrings.map (fun label => "\x27" ++ label ++ "\x27")) ++ "]"]
    else some []
  | none => some []

/-- `NativePythonOutputModule.WriteFieldValues`, producing the list
`lines_of_text`; `none` models an exception escaping the call (`KeyError`
on a missing `'_timestamp'`, `TypeError` from `'{0:s}'` on a non-string
value, `AttributeError` on a truthy `'path_spec'` value without a
`comparable`, or a `'_event_tag_labels'` value that cannot be iterated as
label strings).  `reservedVariableNames` is modelled from the spec:
`definitions.RESERVED_VARIABLE_NAMES` is a fixed host-defined name set
external to the repository, passed here as an explicit parameter. -/
def WriteFieldValuesLines (reservedVariableNames : List String)
    (fieldValues : FieldMapping) : Option (List String) :=
  let lists := buildAttributeLists reservedVariableNames (sortedItems fieldValues) ([], [])
  match dictGet fieldValues "_timestamp" with
  | none => none
  | some timestampValue =>
    match pyFormatS timestampValue with
    | none => none
    | some timestampString =>
      match pathspecLines fieldValues
          [separatorLine, "[Timestamp]:", "  " ++ timestampString] with
      | none => none
      | some linesOfText2 =>
        match tagSuffix fieldValues with
        | none => none
        | some suffix =>
          some (linesOfText2 ++ ["", "[Reserved attributes]:"] ++ lists.1 ++
            ["", "[Additional attributes]:"] ++ lists.2 ++ suffix ++ [""])

/-- The rendered report: `'\n'.join(lines_of_text)`, which
`WriteFieldValues` hands to `WriteLine`. -/
def WriteFieldValues (reservedVariableNames : List String)
    (fieldValues : FieldMapping) : Option String :=
  (WriteFieldValuesLines reservedVariableNames fieldValues).map (joinWith "\n")

/-- Whether an attribute value is a Python `bytes` object. -/
def isBytesValue : AttrValue → Bool
  | .bytes _ => true
  | _ => false

/-- The keys of a field mapping, in insertion order. -/
def dictKeys (fv : FieldMapping) : List String :=
  fv.map Prod.fst

/-- Strict key order on mapping items (for the sortedness statements). -/
def ltName (a b : String × FieldValue) : Prop :=
  pyStrCompare a.1 b.1 = .lt

/-! # Theorems -/

/-! ## Order facts about Python string comparison -/

theorem charCompare_self (a : Char) : charCompare a a = .eq := by
  simp [charCompare]

theorem charListCompare_self (l : List Char) : charListCompare l l = .eq := by
  induction l with
  | nil => rfl
  | cons a as ih => simp [charListCompare, charCompare_self, ih]

theorem pyStrCompare_self (s : String) : pyStrCompare s s = .eq :=
  charListCompare_self _

/-! ## Dictionary lemmas -/

theorem find?_map_keyPreserving (f : String × FieldValue → String × FieldValue)
    (hf : ∀ p, (f p).1 = p.1) (n : String) (l : List (String × FieldValue)) :
    List.find? (fun p => p.1 == n) (l.map f) =
      (List.find? (fun p => p.1 == n) l).map f := by
  induction l with
  | nil => rfl
  | cons a as ih =>
    simp only [List.map_cons, List.find?_cons, hf a]
    by_cases h : a.1 == n
    · simp [h]
    · simp [h, ih]

theorem dictContains_eq_isSome (fv : FieldMapping) (key : String) :
    dictContains fv key = (dictGet fv key).isSome := by
  induction fv with
  | nil => rfl
  | cons a as ih =>
    simp only [dictContains, dictGet, List.any_cons, List.find?_cons]
    by_cases h : a.1 == key
    · simp [h]
    · simpa [h, dictContains, dictGet] using ih

theorem dictContains_dictGet_ne_none (fv : FieldMapping) (key : String)
    (h : dictGet fv key ≠ none) : dictContains fv key = true := by
  rw [dictContains_eq_isSome]
  exact Option.isSome_iff_ne_none.mpr h

theorem dictGet_append_single (fv : FieldMapping) (k n : String) (v : FieldValue) :
    dictGet (fv ++ [(k, v)]) n =
      match dictGet fv n with
      | some w => some w
      | none => if n = k then some v else none := by
  induction fv with
  | nil =>
    by_cases h : n = k
    · simp [dictGet, List.find?, h]
    · have hkn : (k == n) = false := by
        simp only [beq_eq_false_iff_ne]
        exact fun hh => h hh.symm
      simp [dictGet, List.find?, hkn, h]
  | cons a as ih =>
    by_cases h : a.1 == n
    · simp [dictGet, List.find?, h]
    · simpa [dictGet, List.find?, h] using ih

theorem dictGet_dictSet (fv : FieldMapping) (k n : String) (v : FieldValue) :
    dictGet (dictSet fv k v) n = if n = k then some v else dictGet fv n := by
  by_cases hc : List.any fv (fun p => p.1 == k)
  case pos =>
    have key_pres : ∀ p : String × FieldValue,
        ((fun p => if p.1 == k then (p.1, v) else p) p).1 = p.1 := by
      intro p
      by_cases h : p.1 == k <;> simp [h]
    simp only [dictSet, hc, if_true, dictGet, find?_map_keyPreserving _ key_pres]
    rcases hfind : List.find? (fun p => p.1 == n) fv with _ | p
    · rw [hfind]
      by_cases hnk : n = k
      · rcases List.any_eq_true.mp hc with ⟨q, hq, hqk⟩
        have hqn := List.find?_eq_none.mp hfind q hq
        simp_all
      · simp [hnk]
    · rw [hfind]
      have hp : p.1 = n := by simpa using List.find?_some hfind
      by_cases hnk : n = k
      · simp [hp, hnk]
      · simp [hp, hnk]
  case neg =>
    simp only [dictSet, hc, Bool.false_eq_true, if_false]
    rw [dictGet_append_single]
    rcases hfind : dictGet fv n with _ | w
    · by_cases hnk : n = k <;> simp [hnk]
    · by_cases hnk : n = k
      · exfalso
        apply hc
        have hne : dictGet fv k ≠ none := by
          rw [← hnk, hfind]
          exact fun h => Option.noConfusion h
        have := dictContains_dictGet_ne_none fv k hne
        simpa [dictContains] using this
      · simp [hnk]

/-- The fallback step of `GetFieldValues` never changes a key that is
already bound (or a different key): `dictGet` at `n` is unchanged by the
`if 'k' not in field_values: field_values['k'] = ...` pattern whenever
`n`'s binding exists or `n ≠ k`. -/
theorem dictGet_fallbackStep (fv : FieldMapping) (k n : String) (v : FieldValue)
    (l l' : List String) (h : dictGet fv n ≠ none ∨ n ≠ k) :
    dictGet (if dictContains fv k then (fv, l) else (dictSet fv k v, l')).1 n =
      dictGet fv n := by
  by_cases hc : dictContains fv k
  · simp [hc]
  · simp only [hc, Bool.false_eq_true, if_false]
    rw [dictGet_dictSet]
    rcases h with h | h
    · by_cases hnk : n = k
      · subst hnk
        exact absurd (dictContains_dictGet_ne_none fv n h) (by simpa using hc)
      · simp [hnk]
    · simp [h]

/-! ## Attribute-loop lemmas -/

theorem processAttributes_cons_skipped (dataType : String) (n : String) (v : AttrValue)
    (rest : List (String × AttrValue)) (fv : FieldMapping) (ws : List Warning)
    (h : isSkippedValue v = true) :
    processAttributes dataType ((n, v) :: rest) fv ws =
      processAttributes dataType rest fv ws := by
  simp [processAttributes, h]

theorem processAttributes_cons_plain (dataType : String) (n : String) (v : AttrValue)
    (rest : List (String × AttrValue)) (fv : FieldMapping) (ws : List Warning)
    (hs : isSkippedValue v = false) (hb : isBytesValue v = false) :
    processAttributes dataType ((n, v) :: rest) fv ws =
      processAttributes dataType rest (dictSet fv n (.attr v)) ws := by
  cases v <;> simp_all [processAttributes, isSkippedValue, isBytesValue]

theorem processAttributes_cons_bytes (dataType : String) (n : String) (bs : List Nat)
    (rest : List (String × AttrValue)) (fv : FieldMapping) (ws : List Warning) :
    processAttributes dataType ((n, .bytes bs) :: rest) fv ws =
      processAttributes dataType rest
        (dictSet fv n (.attr (.str (utf8DecodeReplace bs))))
        (ws ++ [⟨n, dataType, utf8DecodeReplace bs⟩]) := by
  simp [processAttributes, isSkippedValue]

/-! ## Fallback-step lemmas -/

theorem dictGet_fallbackStep_of_some (resolver : FallbackFieldResolver)
    (event : EventRecord) (eventData : EventData)
    (eventDataStream : Option EventDataStream) (eventTag : Option EventTag)
    (pr : FieldMapping × List String) (fieldName n : String) (w : FieldValue)
    (h : dictGet pr.1 n = some w) :
    dictGet (fallbackStep resolver event eventData eventDataStream eventTag
      pr fieldName).1 n = some w := by
  by_cases hc : dictContains pr.1 fieldName
  · simpa [fallbackStep, hc] using h
  · simp only [fallbackStep, hc, Bool.false_eq_true, if_false]
    rw [dictGet_dictSet]
    by_cases hnk : n = fieldName
    · exfalso
      apply hc
      apply dictContains_dictGet_ne_none
      rw [← hnk, h]
      exact fun hcon => Option.noConfusion hcon
    · simpa [hnk] using h

/-- Any binding established by the attribute loop survives to the final
field mapping of a successful `GetFieldValues` (the fallback steps never
overwrite an existing key, and the tag write touches only
`'_event_tag_labels'`). -/
theorem getFieldValues_ok_dictGet (resolver : FallbackFieldResolver) (event : EventRecord)
    (eventData : EventData) (eventDataStream : Option EventDataStream)
    (eventTag : Option EventTag) (idString tsString : String)
    (sortedAttributes : List (String × AttrValue)) (n : String) (w : FieldValue)
    (hid : event.identifier = some idString)
    (hts : copyToDateTimeStringISO8601 event.timestamp = some tsString)
    (hsort : pySortedPairs (combinedAttributes eventData eventDataStream) = some sortedAttributes)
    (hproc : dictGet (processAttributes eventData.data_type sortedAttributes
        [("_event_identifier", .attr (.str idString)), ("_timestamp", .attr (.str tsString))]
        []).1 n = some w)
    (hn : n ≠ "_event_tag_labels") :
    ∃ r, GetFieldValues resolver event eventData eventDataStream eventTag = .ok r ∧
      dictGet r.fieldValues n = some w := by
  simp only [GetFieldValues, hid, hts, hsort]
  refine ⟨_, rfl, ?_⟩
  have h1 := dictGet_fallbackStep_of_some resolver event eventData eventDataStream eventTag
    ((processAttributes eventData.data_type sortedAttributes
        [("_event_identifier", .attr (.str idString)), ("_timestamp", .attr (.str tsString))]
        []).1, ([] : List String)) "display_name" n w hproc
  have h2 := dictGet_fallbackStep_of_some resolver event eventData eventDataStream eventTag
    _ "filename" n w h1
  have h3 := dictGet_fallbackStep_of_some resolver event eventData eventDataStream eventTag
    _ "inode" n w h2
  rcases eventTag with _ | tag
  · exact h3
  · rw [dictGet_dictSet]
    simpa [hn] using h3

/-! ## Claim C1 -/

/-- C1 is false as stated: with EventData attribute `a = 'z'` and
EventDataStream attribute `a = 'b'`, the field mapping holds the
EventData value `'z'`, not the EventDataStream value `'b'` —
`sorted(event_attributes)` reorders equal-name pairs by value, so the
stream's pair is processed first here and the data's greater value is the
last write. -/
theorem c1_counterexample :
    (match GetFieldValues (fun _ _ _ _ _ => "") ⟨some "i", some 0⟩
        ⟨"t", [("a", .str "z")]⟩ (some ⟨[("a", .str "b")]⟩) none with
      | .ok r => dictGet r.fieldValues "a"
      | .error _ => none) = some (.attr (.str "z")) ∧ "z" ≠ "b" :=
  ⟨rfl, by decide⟩

/-- C1 (amended): when EventData carries the single attribute `(n, vd)`
and EventDataStream carries the single attribute `(n, vs)` and Python can
order the two values (`pyCompareAttr vs vd = some ord`), the mapping
holds whichever value `sorted` places last: the EventData value `vd` when
`vs < vd`, and the EventDataStream value `vs` otherwise (ties keep source
order by stability, so the stream's equal value stands).  The values are
assumed displayable (not identifier/timestamp-like, not bytes) and `n` is
not the reserved tag-label key. -/
theorem c1_amended_collision_value_order (resolver : FallbackFieldResolver)
    (event : EventRecord) (dataType idString tsString n : String)
    (vd vs : AttrValue) (eventTag : Option EventTag) (ord : Ordering)
    (hid : event.identifier = some idString)
    (hts : copyToDateTimeStringISO8601 event.timestamp = some tsString)
    (hcmp : pyCompareAttr vs vd = some ord)
    (hsd : isSkippedValue vd = false) (hss : isSkippedValue vs = false)
    (hbd : isBytesValue vd = false) (hbs : isBytesValue vs = false)
    (hn : n ≠ "_event_tag_labels") :
    ∃ r, GetFieldValues resolver event ⟨dataType, [(n, vd)]⟩ (some ⟨[(n, vs)]⟩) eventTag =
        .ok r ∧
      dictGet r.fieldValues n = some (.attr (if ord = .lt then vd else vs)) := by
  cases ord
  case lt =>
    have hsort : pySortedPairs (combinedAttributes ⟨dataType, [(n, vd)]⟩ (some ⟨[(n, vs)]⟩)) =
        some [(n, vs), (n, vd)] := by
      simp [combinedAttributes, pySortedPairs, pySortedPairsAux, insertSortedP,
        pyComparePair, pyStrCompare_self, hcmp]
    have hproc : dictGet (processAttributes dataType [(n, vs), (n, vd)]
        [("_event_identifier", .attr (.str idString)), ("_timestamp", .attr (.str tsString))]
        []).1 n = some (.attr vd) := by
      rw [processAttributes_cons_plain _ _ _ _ _ _ hss hbs,
        processAttributes_cons_plain _ _ _ _ _ _ hsd hbd]
      simp [processAttributes, dictGet_dictSet]
    simpa using getFieldValues_ok_dictGet resolver event ⟨dataType, [(n, vd)]⟩
      (some ⟨[(n, vs)]⟩) eventTag idString tsString [(n, vs), (n, vd)] n (.attr vd)
      hid hts hsort hproc hn
  case eq =>
    have hsort : pySortedPairs (combinedAttributes ⟨dataType, [(n, vd)]⟩ (some ⟨[(n, vs)]⟩)) =
        some [(n, vd), (n, vs)] := by
      simp [combinedAttributes, pySortedPairs, pySortedPairsAux, insertSortedP,
        pyComparePair, pyStrCompare_self, hcmp]
    have hproc : dictGet (processAttributes dataType [(n, vd), (n, vs)]
        [("_event_identifier", .attr (.str idString)), ("_timestamp", .attr (.str tsString))]
        []).1 n = some (.attr vs) := by
      rw [processAttributes_cons_plain _ _ _ _ _ _ hsd hbd,
        processAttributes_cons_plain _ _ _ _ _ _ hss hbs]
      simp [processAttributes, dictGet_dictSet]
    simpa using getFieldValues_ok_dictGet resolver event ⟨dataType, [(n, vd)]⟩
      (some ⟨[(n, vs)]⟩) eventTag idString tsString [(n, vd), (n, vs)] n (.attr vs)
      hid hts hsort hproc hn
  case gt =>
    have hsort : pySortedPairs (combinedAttributes ⟨dataType, [(n, vd)]⟩ (some ⟨[(n, vs)]⟩)) =
        some [(n, vd), (n, vs)] := by
      simp [combinedAttributes, pySortedPairs, pySortedPairsAux, insertSortedP,
        pyComparePair, pyStrCompare_self, hcmp]
    have hproc : dictGet (processAttributes dataType [(n, vd), (n, vs)]
        [("_event_identifier", .attr (.str idString)), ("_timestamp", .attr (.str tsString))]
        []).1 n = some (.attr vs) := by
      rw [processAttributes_cons_plain _ _ _ _ _ _ hsd hbd,
        processAttributes_cons_plain _ _ _ _ _ _ hss hbs]
      simp [processAttributes, dictGet_dictSet]
    simpa using getFieldValues_ok_dictGet resolver event ⟨dataType, [(n, vd)]⟩
      (some ⟨[(n, vs)]⟩) eventTag idString tsString [(n, vd), (n, vs)] n (.attr vs)
      hid hts hsort hproc hn

/-- Witness for the amended C1 at a concrete input (`vs < vd`, so the
EventData value wins). -/
theorem c1_amended_witness :
    ∃ r, GetFieldValues (fun _ _ _ _ _ => "") ⟨some "i", some 0⟩
        ⟨"t", [("a", .str "z")]⟩ (some ⟨[("a", .str "b")]⟩) none = .ok r ∧
      dictGet r.fieldValues "a" = some (.attr (.str "z")) := by
  simpa using c1_amended_collision_value_order (fun _ _ _ _ _ => "")
    ⟨some "i", some 0⟩ "t" "i" "1970-01-01T00:00:00.000000+00:00" "a"
    (.str "z") (.str "b") none .lt rfl rfl rfl rfl rfl rfl rfl (by decide)

/-! ## Claim C2 -/

/-- C2 is false as stated: both mandatory fields materialize (shown by
the last two conjuncts), yet `GetFieldValues` raises `TypeError` because
EventData and EventDataStream share the attribute name `a` with values
`1` and `'x'` that Python cannot order inside `sorted`. -/
theorem c2_counterexample :
    GetFieldValues (fun _ _ _ _ _ => "") ⟨some "i", some 0⟩ ⟨"t", [("a", .int 1)]⟩
        (some ⟨[("a", .str "x")]⟩) none = .error .typeError ∧
      (⟨some "i", some 0⟩ : EventRecord).identifier = some "i" ∧
      copyToDateTimeStringISO8601 (some 0) = some "1970-01-01T00:00:00.000000+00:00" :=
  ⟨rfl, rfl, rfl⟩

/-- C2 (amended): `GetFieldValues` fails exactly when the record's
identifier or timestamp cannot be materialized **or** when
`sorted(event_attributes)` raises `TypeError` on same-name attribute
values that Python cannot order; on every other input it returns a field
mapping without raising, regardless of the attribute values. -/
theorem c2_amended_error_iff (resolver : FallbackFieldResolver) (event : EventRecord)
    (eventData : EventData) (eventDataStream : Option EventDataStream)
    (eventTag : Option EventTag) :
    (∃ e, GetFieldValues resolver event eventData eventDataStream eventTag = .error e) ↔
      (event.identifier = none ∨ copyToDateTimeStringISO8601 event.timestamp = none ∨
        pySortedPairs (combinedAttributes eventData eventDataStream) = none) := by
  rcases hid : event.identifier with _ | idString
  · simp [GetFieldValues, hid]
  · rcases hts : copyToDateTimeStringISO8601 event.timestamp with _ | tsString
    · simp [GetFieldValues, hid, hts]
    · rcases hsort : pySortedPairs (combinedAttributes eventData eventDataStream) with _ | l
      · simp [GetFieldValues, hid, hts, hsort]
      · simp [GetFieldValues, hid, hts, hsort]

/-- Witness for the amended C2 at a concrete input (missing identifier). -/
theorem c2_amended_witness :
    ∃ e, GetFieldValues (fun _ _ _ _ _ => "") ⟨none, some 0⟩ ⟨"t", []⟩ none none =
      .error e :=
  (c2_amended_error_iff (fun _ _ _ _ _ => "") ⟨none, some 0⟩ ⟨"t", []⟩ none none).mpr
    (Or.inl rfl)

/-! ## Claim C9 -/

/-- C9 is false as stated: a mapping that contains the reserved timestamp
key and no path-specification value still makes `WriteFieldValues` raise
when the timestamp value is not a string — `'  {0:s}'.format(5)` is a
`TypeError`. -/
theorem c9_counterexample :
    dictContains [("_timestamp", FieldValue.attr (.int 5))] "_timestamp" = true ∧
      dictGet [("_timestamp", FieldValue.attr (.int 5))] "path_spec" = none ∧
      WriteFieldValues [] [("_timestamp", FieldValue.attr (.int 5))] = none :=
  ⟨rfl, rfl, rfl⟩

/-- C9 (amended): `WriteFieldValues` is total — it always produces a
string — on every field mapping whose `'_timestamp'` value is a string,
whose `'path_spec'` value (when present and truthy) is a path
specification exposing a comparable string, and whose
`'_event_tag_labels'` value (when present and truthy) can be iterated as
label strings. -/
theorem c9_amended_total (reservedVariableNames : List String) (fv : FieldMapping)
    (ts : String)
    (hts : dictGet fv "_timestamp" = some (.attr (.str ts)))
    (hps : ∀ v, dictGet fv "path_spec" = some v → pyTruthyFieldValue v = true →
      ∃ c, v = .attr (.pathspec c))
    (hlab : ∀ v, dictGet fv "_event_tag_labels" = some v → pyTruthyFieldValue v = true →
      (pyIterLabels v).isSome = true) :
    ∃ s, WriteFieldValues reservedVariableNames fv = some s := by
  suffices h : (WriteFieldValuesLines reservedVariableNames fv).isSome = true by
    rcases Option.isSome_iff_exists.mp h with ⟨ls, hls⟩
    exact ⟨joinWith "\n" ls, by rw [WriteFieldValues, hls]; rfl⟩
  rcases hv : dictGet fv "path_spec" with _ | v
  · rcases hl : dictGet fv "_event_tag_labels" with _ | lv
    · simp [WriteFieldValuesLines, pathspecLines, tagSuffix, hts, pyFormatS, hv, hl]
    · by_cases htru : pyTruthyFieldValue lv
      · rcases Option.isSome_iff_exists.mp (hlab lv hl htru) with ⟨ls, hlx⟩
        simp [WriteFieldValuesLines, pathspecLines, tagSuffix, hts, pyFormatS, hv, hl, htru, hlx]
      · simp [WriteFieldValuesLines, pathspecLines, tagSuffix, hts, pyFormatS, hv, hl, htru]
  · by_cases htru : pyTruthyFieldValue v
    · rcases hps v hv htru with ⟨c, rfl⟩
      rcases hl : dictGet fv "_event_tag_labels" with _ | lv
      · simp [WriteFieldValuesLines, pathspecLines, tagSuffix, hts, pyFormatS, hv, hl, htru]
      · by_cases htrul : pyTruthyFieldValue lv
        · rcases Option.isSome_iff_exists.mp (hlab lv hl htrul) with ⟨ls, hlx⟩
          simp [WriteFieldValuesLines, pathspecLines, tagSuffix, hts, pyFormatS, hv, hl, htru, htrul, hlx]
        · simp [WriteFieldValuesLines, pathspecLines, tagSuffix, hts, pyFormatS, hv, hl, htru, htrul]
    · rcases hl : dictGet fv "_event_tag_labels" with _ | lv
      · simp [WriteFieldValuesLines, pathspecLines, tagSuffix, hts, pyFormatS, hv, hl, htru]
      · by_cases htrul : pyTruthyFieldValue lv
        · rcases Option.isSome_iff_exists.mp (hlab lv hl htrul) with ⟨ls, hlx⟩
          simp [WriteFieldValuesLines, pathspecLines, tagSuffix, hts, pyFormatS, hv, hl, htru, htrul, hlx]
        · simp [WriteFieldValuesLines, pathspecLines, tagSuffix, hts, pyFormatS, hv, hl, htru, htrul]

/-- Witness for the amended C9 at a concrete well-formed mapping. -/
theorem c9_amended_witness :
    ∃ s, WriteFieldValues [] [("_timestamp", FieldValue.attr (.str "T"))] = some s :=
  c9_amended_total [] [("_timestamp", FieldValue.attr (.str "T"))] "T" rfl
    (fun v hv => by simp [dictGet, List.find?] at hv)
    (fun v hv => by simp [dictGet, List.find?] at hv)

/-! ## Split-line lemmas (for the Pathspec section) -/

theorem splitLinesAux_ne_nil (l : List Char) (cur : List Char) :
    splitLinesAux cur l ≠ [] := by
  induction l generalizing cur with
  | nil => simp [splitLinesAux]
  | cons c cs ih =>
    by_cases h : c = Char.ofNat 10
    · simp [splitLinesAux, h]
    · simpa [splitLinesAux, h] using ih (c :: cur)

theorem pySplitLines_ne_nil (s : String) : pySplitLines s ≠ [] :=
  splitLinesAux_ne_nil s.data []

theorem splitLinesAux_getLast?_newline (l : List Char) (cur : List Char) :
    (splitLinesAux cur (l ++ [Char.ofNat 10])).getLast? = some "" := by
  induction l generalizing cur with
  | nil => simp [splitLinesAux]
  | cons c cs ih =>
    by_cases h : c = Char.ofNat 10
    · subst h
      rcases hE : splitLinesAux [] (cs ++ [Char.ofNat 10]) with _ | ⟨y, ys⟩
      · exact absurd hE (splitLinesAux_ne_nil _ _)
      · have hih := ih ([] : List Char)
        rw [hE] at hih
        have hstep : splitLinesAux cur ((Char.ofNat 10 :: cs) ++ [Char.ofNat 10]) =
            String.mk cur.reverse :: splitLinesAux [] (cs ++ [Char.ofNat 10]) := by
          simp [splitLinesAux]
        rw [hstep, hE, List.getLast?_cons_cons]
        exact hih
    · simpa [splitLinesAux, h] using ih (c :: cur)

/-- A string ending in a newline splits into lines whose last piece is
the empty string. -/
theorem pySplitLines_getLast?_newline (c : String) (h : ∃ c0, c.data = c0 ++ [Char.ofNat 10]) :
    (pySplitLines c).getLast? = some "" := by
  rcases h with ⟨c0, h0⟩
  rw [pySplitLines, h0]
  exact splitLinesAux_getLast?_newline c0 []

/-! ## Claim C3 -/

/-- C3 is false as stated: a path specification whose comparable string
is `"abc"` (no trailing newline) renders with an **empty** `[Pathspec]:`
body — the unconditional `lines_of_text.pop()` drops the final non-blank
line `"  abc"`, which appears nowhere in the output. -/
theorem c3_counterexample :
    WriteFieldValuesLines []
        [("_timestamp", FieldValue.attr (.str "T")),
         ("path_spec", FieldValue.attr (.pathspec "abc"))] =
      some [separatorLine, "[Timestamp]:", "  T", "", "[Pathspec]:", "",
        "[Reserved attributes]:", "", "[Additional attributes]:", ""] ∧
      "  abc" ∉ [separatorLine, "[Timestamp]:", "  T", "", "[Pathspec]:", "",
        "[Reserved attributes]:", "", "[Additional attributes]:", ""] :=
  ⟨rfl, by decide⟩

/-- C3 (amended): for a field mapping whose path-specification value has
a comparable string that **ends in a newline** (as dfVFS comparable
strings do), the rendered lines contain a `[Pathspec]:` section whose
body is exactly the comparable string's pieces with the final piece of
the split dropped, each remaining line indented by two spaces; the
dropped piece is the empty string arising from the trailing newline, so
only the trailing blank line is collapsed.  When the comparable string
does not end in a newline, the `pop()` instead drops the final non-blank
line (see the counterexample).  The mapping's timestamp value is a string
and any tag-label value is iterable, so rendering succeeds. -/
theorem c3_amended_pathspec_section (reservedVariableNames : List String)
    (fv : FieldMapping) (ts c : String)
    (hts : dictGet fv "_timestamp" = some (.attr (.str ts)))
    (hv : dictGet fv "path_spec" = some (.attr (.pathspec c)))
    (hnl : ∃ c0, c.data = c0 ++ [Char.ofNat 10])
    (hlab : ∀ v, dictGet fv "_event_tag_labels" = some v → pyTruthyFieldValue v = true →
      (pyIterLabels v).isSome = true) :
    (pySplitLines c).getLast? = some "" ∧
      ∃ tail, WriteFieldValuesLines reservedVariableNames fv =
        some ([separatorLine, "[Timestamp]:", "  " ++ ts, "", "[Pathspec]:"] ++
          (pySplitLines c).dropLast.map (fun line => "  " ++ line) ++ tail) := by
  refine ⟨pySplitLines_getLast?_newline c hnl, ?_⟩
  have hM : (pySplitLines c).map (fun line => "  " ++ line) ≠ [] := by
    simpa using pySplitLines_ne_nil c
  have hdrop :
      (([separatorLine, "[Timestamp]:", "  " ++ ts] ++ ["", "[Pathspec]:"] ++
          (pySplitLines c).map (fun line => "  " ++ line)).dropLast) =
        [separatorLine, "[Timestamp]:", "  " ++ ts] ++ ["", "[Pathspec]:"] ++
          (pySplitLines c).dropLast.map (fun line => "  " ++ line) := by
    rw [List.dropLast_append_of_ne_nil _ hM, List.map_dropLast]
  rcases hl : dictGet fv "_event_tag_labels" with _ | lv
  · refine ⟨["", "[Reserved attributes]:"] ++
      (buildAttributeLists reservedVariableNames (sortedItems fv) ([], [])).1 ++
      ["", "[Additional attributes]:"] ++
      (buildAttributeLists reservedVariableNames (sortedItems fv) ([], [])).2 ++ [""], ?_⟩
    have hptru : pyTruthyFieldValue (.attr (.pathspec c)) = true := rfl
    simp only [WriteFieldValuesLines, pathspecLines, tagSuffix, hts, hv, pyFormatS, hptru, if_true, hl, hdrop]
    simp [List.append_assoc]
  · by_cases htru : pyTruthyFieldValue lv
    · rcases Option.isSome_iff_exists.mp (hlab lv hl htru) with ⟨ls, hlx⟩
      refine ⟨["", "[Reserved attributes]:"] ++
        (buildAttributeLists reservedVariableNames (sortedItems fv) ([], [])).1 ++
        ["", "[Additional attributes]:"] ++
        (buildAttributeLists reservedVariableNames (sortedItems fv) ([], [])).2 ++
        ["", "[Tag]:",
          "  \x7blabels\x7d [" ++
            joinWith ", " (ls.map (fun label => "\x27" ++ label ++ "\x27")) ++ "]"] ++
        [""], ?_⟩
      have hptru : pyTruthyFieldValue (.attr (.pathspec c)) = true := rfl
      simp only [WriteFieldValuesLines, pathspecLines, tagSuffix, hts, hv, pyFormatS, hptru, if_true, hl, htru, hlx, hdrop]
      simp [List.append_assoc]
    · refine ⟨["", "[Reserved attributes]:"] ++
        (buildAttributeLists reservedVariableNames (sortedItems fv) ([], [])).1 ++
        ["", "[Additional attributes]:"] ++
        (buildAttributeLists reservedVariableNames (sortedItems fv) ([], [])).2 ++ [""], ?_⟩
      have hptru : pyTruthyFieldValue (.attr (.pathspec c)) = true := rfl
      simp only [WriteFieldValuesLines, pathspecLines, tagSuffix, hts, hv, pyFormatS, hptru, if_true, hl, htru, hdrop]
      simp [List.append_assoc, htru]

/-- Witness for the amended C3 at a concrete mapping whose comparable
string ends in a newline. -/
theorem c3_amended_witness :
    (pySplitLines "l1\nl2\n").getLast? = some "" ∧
      ∃ tail, WriteFieldValuesLines []
          [("_timestamp", FieldValue.attr (.str "T")),
           ("path_spec", FieldValue.attr (.pathspec "l1\nl2\n"))] =
        some ([separatorLine, "[Timestamp]:", "  " ++ "T", "", "[Pathspec]:"] ++
          (pySplitLines "l1\nl2\n").dropLast.map (fun line => "  " ++ line) ++ tail) :=
  c3_amended_pathspec_section []
    [("_timestamp", FieldValue.attr (.str "T")),
     ("path_spec", FieldValue.attr (.pathspec "l1\nl2\n"))] "T" "l1\nl2\n" rfl rfl
    ⟨"l1\nl2".data, rfl⟩
    (fun v hv => by simp [dictGet, List.find?] at hv)

/-! ## Claim C4 -/

/-- C4: the end-to-end example.  `RESERVED_VARIABLE_NAMES` is external to
the repository and modelled as an abstract fixed set; the hypotheses make
the spec's assumption "neither key is reserved" explicit, extended to the
three always-stored fallback fields (which the spec leaves open — were
any of them reserved, its line would move to the `[Reserved attributes]:`
section).  With a fallback resolver returning no non-empty values, the
output starts with the separator, the `[Timestamp]:` section holds
`2024-01-01T00:00:00.000000+00:00`, the `[Reserved attributes]:` section
is empty, and in `[Additional attributes]:` the `name_attr` line precedes
the `size` line (sort by name, not insertion order). -/
theorem c4_end_to_end (reservedVariableNames : List String) (resolver : FallbackFieldResolver)
    (h1 : reservedVariableNames.contains "size" = false)
    (h2 : reservedVariableNames.contains "name_attr" = false)
    (h3 : reservedVariableNames.contains "display_name" = false)
    (h4 : reservedVariableNames.contains "filename" = false)
    (h5 : reservedVariableNames.contains "inode" = false)
    (hres : ∀ e d s t f, resolver e d s t f = "") :
    ∃ r, GetFieldValues resolver ⟨some "i", some 1704067200000000⟩
        ⟨"test:dt", [("size", .int 10), ("name_attr", .str "x")]⟩ none none = .ok r ∧
      WriteFieldValuesLines reservedVariableNames r.fieldValues =
        some [separatorLine, "[Timestamp]:", "  2024-01-01T00:00:00.000000+00:00", "",
          "[Reserved attributes]:", "", "[Additional attributes]:",
          "  \x7bdisplay_name\x7d ", "  \x7bfilename\x7d ", "  \x7binode\x7d ",
          "  \x7bname_attr\x7d x", "  \x7bsize\x7d 10", ""] := by
  have hresolver : resolver = fun _ _ _ _ _ => "" := by
    funext e d s t f
    exact hres e d s t f
  subst hresolver
  refine ⟨⟨[("_event_identifier", .attr (.str "i")),
      ("_timestamp", .attr (.str "2024-01-01T00:00:00.000000+00:00")),
      ("name_attr", .attr (.str "x")), ("size", .attr (.int 10)),
      ("display_name", .attr (.str "")), ("filename", .attr (.str "")),
      ("inode", .attr (.str ""))], [], ["display_name", "filename", "inode"]⟩, rfl, ?_⟩
  have hsorted : sortedItems [("_event_identifier", .attr (.str "i")),
      ("_timestamp", .attr (.str "2024-01-01T00:00:00.000000+00:00")),
      ("name_attr", .attr (.str "x")), ("size", .attr (.int 10)),
      ("display_name", .attr (.str "")), ("filename", .attr (.str "")),
      ("inode", .attr (.str ""))] =
      [("_event_identifier", .attr (.str "i")),
       ("_timestamp", .attr (.str "2024-01-01T00:00:00.000000+00:00")),
       ("display_name", .attr (.str "")), ("filename", .attr (.str "")),
       ("inode", .attr (.str "")), ("name_attr", .attr (.str "x")),
       ("size", .attr (.int 10))] := rfl
  have hbuild : buildAttributeLists reservedVariableNames
      [("_event_identifier", FieldValue.attr (.str "i")),
       ("_timestamp", FieldValue.attr (.str "2024-01-01T00:00:00.000000+00:00")),
       ("display_name", FieldValue.attr (.str "")), ("filename", FieldValue.attr (.str "")),
       ("inode", FieldValue.attr (.str "")), ("name_attr", FieldValue.attr (.str "x")),
       ("size", FieldValue.attr (.int 10))] ([], []) =
      ([], ["  \x7bdisplay_name\x7d ", "  \x7bfilename\x7d ", "  \x7binode\x7d ",
        "  \x7bname_attr\x7d x", "  \x7bsize\x7d 10"]) := by
    have m1 : "size" ∉ reservedVariableNames := by simpa using h1
    have m2 : "name_attr" ∉ reservedVariableNames := by simpa using h2
    have m3 : "display_name" ∉ reservedVariableNames := by simpa using h3
    have m4 : "filename" ∉ reservedVariableNames := by simpa using h4
    have m5 : "inode" ∉ reservedVariableNames := by simpa using h5
    simp [buildAttributeLists, structuralKeys, m1, m2, m3, m4, m5, fieldLine,
      pyStrFieldValue, pyStrAttr]
    rfl
  simp only [WriteFieldValuesLines, hsorted, hbuild]
  rfl

/-! ## Permutation facts about the partial sort -/

theorem insertSortedP_perm (x : String × AttrValue) :
    ∀ (l r : List (String × AttrValue)), insertSortedP x l = some r → r.Perm (x :: l) := by
  intro l
  induction l with
  | nil =>
    intro r h
    simp only [insertSortedP, Option.some.injEq] at h
    subst h
    exact List.Perm.refl _
  | cons z zs ih =>
    intro r h
    rw [insertSortedP] at h
    rcases hc : pyComparePair x z with _ | o
    · rw [hc] at h
      exact absurd h (by simp)
    · rw [hc] at h
      rcases o with _ | _ | _
      · simp only [Option.some.injEq] at h
        subst h
        exact List.Perm.refl _
      · rcases hi : insertSortedP x zs with _ | ws
        · rw [hi] at h
          simp at h
        · rw [hi] at h
          simp only [Option.some.injEq] at h
          subst h
          exact ((ih ws hi).cons z).trans (List.Perm.swap x z zs)
      · rcases hi : insertSortedP x zs with _ | ws
        · rw [hi] at h
          simp at h
        · rw [hi] at h
          simp only [Option.some.injEq] at h
          subst h
          exact ((ih ws hi).cons z).trans (List.Perm.swap x z zs)

theorem pySortedPairsAux_perm :
    ∀ (l acc r : List (String × AttrValue)), pySortedPairsAux acc l = some r →
      r.Perm (acc ++ l) := by
  intro l
  induction l with
  | nil =>
    intro acc r h
    simp only [pySortedPairsAux, Option.some.injEq] at h
    subst h
    simp
  | cons x xs ih =>
    intro acc r h
    rw [pySortedPairsAux] at h
    rcases hi : insertSortedP x acc with _ | acc2
    · rw [hi] at h
      simp at h
    · rw [hi] at h
      have hperm := ih acc2 r h
      have h2 := insertSortedP_perm x acc acc2 hi
      exact hperm.trans ((h2.append_right xs).trans List.perm_middle.symm)

/-- A successful Python `sorted` permutes its input. -/
theorem pySortedPairs_perm (l r : List (String × AttrValue))
    (h : pySortedPairs l = some r) : r.Perm l :=
  pySortedPairsAux_perm l [] r h

/-! ## Containment facts about the attribute loop and fallback steps -/

theorem dictContains_dictSet_self (fv : FieldMapping) (k : String) (v : FieldValue) :
    dictContains (dictSet fv k v) k = true := by
  rw [dictContains_eq_isSome, dictGet_dictSet]
  simp

theorem dictContains_dictSet_mono (fv : FieldMapping) (k n : String) (v : FieldValue)
    (h : dictContains fv n = true) : dictContains (dictSet fv k v) n = true := by
  rw [dictContains_eq_isSome, dictGet_dictSet]
  by_cases hnk : n = k
  · simp [hnk]
  · rw [dictContains_eq_isSome] at h
    simpa [hnk] using h

theorem processAttributes_contains_mono (dataType : String) :
    ∀ (l : List (String × AttrValue)) (fv : FieldMapping) (ws : List Warning) (n : String),
      dictContains fv n = true → dictContains (processAttributes dataType l fv ws).1 n = true := by
  intro l
  induction l with
  | nil =>
    intro fv ws n h
    simpa [processAttributes] using h
  | cons p rest ih =>
    intro fv ws n h
    obtain ⟨m, w⟩ := p
    by_cases hs : isSkippedValue w
    · rw [processAttributes_cons_skipped _ _ _ _ _ _ hs]
      exact ih fv ws n h
    · by_cases hb : isBytesValue w
      · rcases w with _ | _ | bs | _ | _ | _ | _ <;> simp [isBytesValue] at hb
        rw [processAttributes_cons_bytes]
        exact ih _ _ n (dictContains_dictSet_mono _ _ _ _ h)
      · rw [processAttributes_cons_plain _ _ _ _ _ _ (by simpa using hs) (by simpa using hb)]
        exact ih _ _ n (dictContains_dictSet_mono _ _ _ _ h)

/-- An attribute pair that the loop retains (its value is not skipped)
leaves its name bound in the mapping, whatever else the loop does. -/
theorem processAttributes_contains_of_mem (dataType : String) :
    ∀ (l : List (String × AttrValue)) (fv : FieldMapping) (ws : List Warning)
      (n : String) (v : AttrValue), (n, v) ∈ l → isSkippedValue v = false →
      dictContains (processAttributes dataType l fv ws).1 n = true := by
  intro l
  induction l with
  | nil =>
    intro fv ws n v hmem
    simp at hmem
  | cons p rest ih =>
    intro fv ws n v hmem hskip
    obtain ⟨m, w⟩ := p
    rcases List.mem_cons.mp hmem with heq | hmem'
    · cases heq
      by_cases hb : isBytesValue v
      · rcases v with _ | _ | bs | _ | _ | _ | _ <;> simp [isBytesValue] at hb
        rw [processAttributes_cons_bytes]
        exact processAttributes_contains_mono _ _ _ _ _ (dictContains_dictSet_self _ _ _)
      · rw [processAttributes_cons_plain _ _ _ _ _ _ hskip (by simpa using hb)]
        exact processAttributes_contains_mono _ _ _ _ _ (dictContains_dictSet_self _ _ _)
    · by_cases hs : isSkippedValue w
      · rw [processAttributes_cons_skipped _ _ _ _ _ _ hs]
        exact ih fv ws n v hmem' hskip
      · by_cases hb : isBytesValue w
        · rcases w with _ | _ | bs | _ | _ | _ | _ <;> simp [isBytesValue] at hb
          rw [processAttributes_cons_bytes]
          exact ih _ _ n v hmem' hskip
        · rw [processAttributes_cons_plain _ _ _ _ _ _ (by simpa using hs) (by simpa using hb)]
          exact ih _ _ n v hmem' hskip

/-- A fallback step neither unbinds a bound name nor records a call for
it. -/
theorem fallbackStep_keeps (resolver : FallbackFieldResolver) (event : EventRecord)
    (eventData : EventData) (eventDataStream : Option EventDataStream)
    (eventTag : Option EventTag) (pr : FieldMapping × List String) (k n : String)
    (h1 : dictContains pr.1 n = true) (h2 : n ∉ pr.2) :
    dictContains (fallbackStep resolver event eventData eventDataStream eventTag
        pr k).1 n = true ∧
      n ∉ (fallbackStep resolver event eventData eventDataStream eventTag pr k).2 := by
  by_cases hc : dictContains pr.1 k
  · simpa [fallbackStep, hc] using ⟨h1, h2⟩
  · have hne : n ≠ k := fun he => hc (he ▸ h1)
    constructor
    · simp only [fallbackStep, hc, Bool.false_eq_true, if_false]
      exact dictContains_dictSet_mono _ _ _ _ h1
    · simp only [fallbackStep, hc, Bool.false_eq_true, if_false]
      simp [h2, hne]

theorem fallbackStep_contains_self (resolver : FallbackFieldResolver) (event : EventRecord)
    (eventData : EventData) (eventDataStream : Option EventDataStream)
    (eventTag : Option EventTag) (pr : FieldMapping × List String) (k : String) :
    dictContains (fallbackStep resolver event eventData eventDataStream eventTag
      pr k).1 k = true := by
  by_cases hc : dictContains pr.1 k
  · rw [fallbackStep, if_pos hc]
    exact hc
  · simp only [fallbackStep, hc, Bool.false_eq_true, if_false]
    exact dictContains_dictSet_self _ _ _

theorem fallbackStep_contains_mono (resolver : FallbackFieldResolver) (event : EventRecord)
    (eventData : EventData) (eventDataStream : Option EventDataStream)
    (eventTag : Option EventTag) (pr : FieldMapping × List String) (k n : String)
    (h : dictContains pr.1 n = true) :
    dictContains (fallbackStep resolver event eventData eventDataStream eventTag
      pr k).1 n = true := by
  by_cases hc : dictContains pr.1 k
  · simpa [fallbackStep, hc] using h
  · simp only [fallbackStep, hc, Bool.false_eq_true, if_false]
    exact dictContains_dictSet_mono _ _ _ _ h

theorem dictGet_some_mem (fv : FieldMapping) (n : String) (v : FieldValue)
    (h : dictGet fv n = some v) : (n, v) ∈ fv := by
  simp only [dictGet, Option.map_eq_some'] at h
  rcases h with ⟨p, hfind, hp2⟩
  have hp1 : p.1 = n := by simpa using List.find?_some hfind
  have hmem := List.mem_of_find?_eq_some hfind
  have : p = (n, v) := by
    cases p
    simp_all
  rw [← this]
  exact hmem

/-! ## Shape of the rendered line list -/

/-- The attribute loop of the renderer, as filter-and-map over the sorted
items: the reserved list collects the non-structural names in
`RESERVED_VARIABLE_NAMES`, the additional list the remaining
non-structural names, both formatted with `fieldLine`. -/
theorem buildAttributeLists_eq (R : List String) :
    ∀ (entries : List (String × FieldValue)) (acc : List String × List String),
      buildAttributeLists R entries acc =
        (acc.1 ++ (entries.filter fun p => !structuralKeys.contains p.1 && R.contains p.1).map
            (fun p => fieldLine p.1 p.2),
         acc.2 ++ (entries.filter fun p => !structuralKeys.contains p.1 && !R.contains p.1).map
            (fun p => fieldLine p.1 p.2)) := by
  intro entries
  induction entries with
  | nil =>
    intro acc
    simp [buildAttributeLists]
  | cons p rest ih =>
    intro acc
    obtain ⟨name, value⟩ := p
    by_cases hs : name ∈ structuralKeys
    · simp [buildAttributeLists, hs, ih]
    · by_cases hr : name ∈ R
      · simp [buildAttributeLists, hs, hr, ih]
      · simp [buildAttributeLists, hs, hr, ih]

/-- Every successful render consists of a head (separator, timestamp and
optional pathspec section), the reserved section, the additional section,
the optional tag section and the trailing blank line. -/
theorem writeFieldValuesLines_shape (R : List String) (fv : FieldMapping) (ls : List String)
    (h : WriteFieldValuesLines R fv = some ls) :
    ∃ pre suffix, ls = pre ++ ["", "[Reserved attributes]:"] ++
        (buildAttributeLists R (sortedItems fv) ([], [])).1 ++
        ["", "[Additional attributes]:"] ++
        (buildAttributeLists R (sortedItems fv) ([], [])).2 ++ suffix ++ [""] := by
  simp only [WriteFieldValuesLines] at h
  split at h
  · simp at h
  · split at h
    · simp at h
    · split at h
      · simp at h
      · split at h
        · simp at h
        · simp only [Option.some.injEq] at h
          exact ⟨_, _, by rw [← h]; try simp [List.append_assoc]⟩

/-- A mapping binding whose name is not structural always yields its line
in one of the two rendered attribute sections. -/
theorem fieldLine_mem_sections (R : List String) (fv : FieldMapping) (name : String)
    (v : FieldValue) (hget : dictGet fv name = some v)
    (hstruct : structuralKeys.contains name = false) (ls : List String)
    (hls : WriteFieldValuesLines R fv = some ls) : fieldLine name v ∈ ls := by
  obtain ⟨pre, suffix, hshape⟩ := writeFieldValuesLines_shape R fv ls hls
  have hmemfv : (name, v) ∈ fv := dictGet_some_mem fv name v hget
  have hmemsorted : (name, v) ∈ sortedItems fv :=
    ((List.perm_insertionSort leName fv).mem_iff).mpr hmemfv
  by_cases hr : R.contains name
  · have h1 : fieldLine name v ∈ (buildAttributeLists R (sortedItems fv) ([], [])).1 := by
      rw [buildAttributeLists_eq]
      simp only [List.nil_append]
      exact List.mem_map.mpr
        ⟨(name, v), List.mem_filter.mpr ⟨hmemsorted,
          by simp only [Bool.and_eq_true, Bool.not_eq_true']
             exact ⟨hstruct, hr⟩⟩, rfl⟩
    rw [hshape]
    simp [h1]
  · have h2 : fieldLine name v ∈ (buildAttributeLists R (sortedItems fv) ([], [])).2 := by
      rw [buildAttributeLists_eq]
      simp only [List.nil_append]
      exact List.mem_map.mpr
        ⟨(name, v), List.mem_filter.mpr ⟨hmemsorted,
          by simp only [Bool.and_eq_true, Bool.not_eq_true']
             exact ⟨hstruct, by simpa using hr⟩⟩, rfl⟩
    rw [hshape]
    simp [h2]

/-! ## Claim C10 -/

/-- C10: every successful `GetFieldValues` produces a mapping containing
`'_event_identifier'`, `'_timestamp'`, `'display_name'`, `'filename'` and
`'inode'` — the three well-known fields are stored even when the fallback
resolver returns an empty string — and consequently every successful
render of that mapping shows a `display_name`, `filename` and `inode`
line in the attribute sections. -/
theorem c10_mandatory_fields (resolver : FallbackFieldResolver) (event : EventRecord)
    (eventData : EventData) (eventDataStream : Option EventDataStream)
    (eventTag : Option EventTag) (r : CollectResult)
    (hok : GetFieldValues resolver event eventData eventDataStream eventTag = .ok r) :
    dictContains r.fieldValues "_event_identifier" = true ∧
      dictContains r.fieldValues "_timestamp" = true ∧
      dictContains r.fieldValues "display_name" = true ∧
      dictContains r.fieldValues "filename" = true ∧
      dictContains r.fieldValues "inode" = true ∧
      ∀ name, (name = "display_name" ∨ name = "filename" ∨ name = "inode") →
        ∀ (R ls : List String), WriteFieldValuesLines R r.fieldValues = some ls →
          ∃ v, dictGet r.fieldValues name = some v ∧ fieldLine name v ∈ ls := by
  simp only [GetFieldValues] at hok
  rcases hid : event.identifier with _ | idS
  · rw [hid] at hok
    simp at hok
  · rw [hid] at hok
    rcases hts : copyToDateTimeStringISO8601 event.timestamp with _ | tsS
    · rw [hts] at hok
      simp at hok
    · rw [hts] at hok
      rcases hsort : pySortedPairs (combinedAttributes eventData eventDataStream) with _ | l
      · rw [hsort] at hok
        simp at hok
      · rw [hsort] at hok
        injection hok with hr
        subst hr
        set P := processAttributes eventData.data_type l
          [("_event_identifier", .attr (.str idS)), ("_timestamp", .attr (.str tsS))] []
        set A1 := fallbackStep resolver event eventData eventDataStream eventTag
          (P.1, []) "display_name"
        set A2 := fallbackStep resolver event eventData eventDataStream eventTag
          A1 "filename"
        set A3 := fallbackStep resolver event eventData eventDataStream eventTag
          A2 "inode"
        have hPid : dictContains P.1 "_event_identifier" = true :=
          processAttributes_contains_mono _ _ _ _ _ rfl
        have hPts : dictContains P.1 "_timestamp" = true :=
          processAttributes_contains_mono _ _ _ _ _ rfl
        have hA3id : dictContains A3.1 "_event_identifier" = true :=
          fallbackStep_contains_mono _ _ _ _ _ _ _ _
            (fallbackStep_contains_mono _ _ _ _ _ _ _ _
              (fallbackStep_contains_mono _ _ _ _ _ _ _ _ hPid))
        have hA3ts : dictContains A3.1 "_timestamp" = true :=
          fallbackStep_contains_mono _ _ _ _ _ _ _ _
            (fallbackStep_contains_mono _ _ _ _ _ _ _ _
              (fallbackStep_contains_mono _ _ _ _ _ _ _ _ hPts))
        have hA3dn : dictContains A3.1 "display_name" = true :=
          fallbackStep_contains_mono _ _ _ _ _ _ _ _
            (fallbackStep_contains_mono _ _ _ _ _ _ _ _
              (fallbackStep_contains_self _ _ _ _ _ _ _))
        have hA3fn : dictContains A3.1 "filename" = true :=
          fallbackStep_contains_mono _ _ _ _ _ _ _ _
            (fallbackStep_contains_self _ _ _ _ _ _ _)
        have hA3in : dictContains A3.1 "inode" = true :=
          fallbackStep_contains_self _ _ _ _ _ _ _
        rcases eventTag with _ | tag
        case none =>
          refine ⟨hA3id, hA3ts, hA3dn, hA3fn, hA3in, ?_⟩
          intro name hname R ls hls
          have hcont : dictContains A3.1 name = true := by
            rcases hname with rfl | rfl | rfl
            · exact hA3dn
            · exact hA3fn
            · exact hA3in
          rw [dictContains_eq_isSome] at hcont
          rcases Option.isSome_iff_exists.mp hcont with ⟨v, hv⟩
          refine ⟨v, hv, ?_⟩
          have hstruct : structuralKeys.contains name = false := by
            rcases hname with rfl | rfl | rfl <;> rfl
          exact fieldLine_mem_sections R _ name v hv hstruct ls hls
        case some =>
          refine ⟨dictContains_dictSet_mono _ _ _ _ hA3id,
            dictContains_dictSet_mono _ _ _ _ hA3ts,
            dictContains_dictSet_mono _ _ _ _ hA3dn,
            dictContains_dictSet_mono _ _ _ _ hA3fn,
            dictContains_dictSet_mono _ _ _ _ hA3in, ?_⟩
          intro name hname R ls hls
          have hcont : dictContains (dictSet A3.1 "_event_tag_labels"
              (.labels tag.labels)) name = true := by
            rcases hname with rfl | rfl | rfl
            · exact dictContains_dictSet_mono _ _ _ _ hA3dn
            · exact dictContains_dictSet_mono _ _ _ _ hA3fn
            · exact dictContains_dictSet_mono _ _ _ _ hA3in
          rw [dictContains_eq_isSome] at hcont
          rcases Option.isSome_iff_exists.mp hcont with ⟨v, hv⟩
          refine ⟨v, hv, ?_⟩
          have hstruct : structuralKeys.contains name = false := by
            rcases hname with rfl | rfl | rfl <;> rfl
          exact fieldLine_mem_sections R _ name v hv hstruct ls hls

/-! ## Membership invariants of the mapping (for C6) -/

theorem mem_dictSet (fv : FieldMapping) (k : String) (v : FieldValue)
    (p : String × FieldValue) (h : p ∈ dictSet fv k v) : p = (k, v) ∨ p ∈ fv := by
  by_cases hc : List.any fv (fun q => q.1 == k)
  · simp only [dictSet, hc, if_true] at h
    rcases List.mem_map.mp h with ⟨q, hq, hpq⟩
    by_cases hqk : q.1 == k
    · left
      rw [← hpq]
      simp [hqk]
      simpa using hqk
    · right
      rw [← hpq]
      simpa [hqk] using hq
  · simp only [dictSet, hc, Bool.false_eq_true, if_false, List.mem_append] at h
    rcases h with h | h
    · exact Or.inr h
    · left
      simpa using h

/-- The attribute loop never stores an identifier-typed or timestamp-like
attribute value: every `attr`-kind binding of the produced mapping is a
non-skipped value, provided the incoming mapping satisfies the same. -/
theorem processAttributes_not_skipped (dataType : String) :
    ∀ (l : List (String × AttrValue)) (fv : FieldMapping) (ws : List Warning),
      (∀ n v', (n, FieldValue.attr v') ∈ fv → isSkippedValue v' = false) →
      ∀ n v', (n, FieldValue.attr v') ∈ (processAttributes dataType l fv ws).1 →
        isSkippedValue v' = false := by
  intro l
  induction l with
  | nil =>
    intro fv ws hfv n v' hmem
    exact hfv n v' hmem
  | cons p rest ih =>
    intro fv ws hfv n v' hmem
    obtain ⟨m, w⟩ := p
    by_cases hs : isSkippedValue w
    · rw [processAttributes_cons_skipped _ _ _ _ _ _ hs] at hmem
      exact ih fv ws hfv n v' hmem
    · by_cases hb : isBytesValue w
      · rcases w with _ | _ | bs | _ | _ | _ | _ <;> simp [isBytesValue] at hb
        rw [processAttributes_cons_bytes] at hmem
        refine ih _ _ ?_ n v' hmem
        intro n2 v2 hm2
        rcases mem_dictSet _ _ _ _ hm2 with he | hm3
        · have : v2 = .str (utf8DecodeReplace bs) := by
            simpa using congrArg Prod.snd he
          rw [this]
          rfl
        · exact hfv n2 v2 hm3
      · rw [processAttributes_cons_plain _ _ _ _ _ _ (by simpa using hs) (by simpa using hb)]
          at hmem
        refine ih _ _ ?_ n v' hmem
        intro n2 v2 hm2
        rcases mem_dictSet _ _ _ _ hm2 with he | hm3
        · have : v2 = w := by
            simpa using congrArg Prod.snd he
          rw [this]
          simpa using hs
        · exact hfv n2 v2 hm3

/-- The fallback steps and the tag write only insert strings and label
lists, so they preserve the no-skipped-value invariant. -/
theorem fallbackStep_not_skipped (resolver : FallbackFieldResolver) (event : EventRecord)
    (eventData : EventData) (eventDataStream : Option EventDataStream)
    (eventTag : Option EventTag) (pr : FieldMapping × List String) (k : String)
    (hfv : ∀ n v', (n, FieldValue.attr v') ∈ pr.1 → isSkippedValue v' = false) :
    ∀ n v', (n, FieldValue.attr v') ∈ (fallbackStep resolver event eventData
      eventDataStream eventTag pr k).1 → isSkippedValue v' = false := by
  intro n v' hmem
  by_cases hc : dictContains pr.1 k
  · rw [fallbackStep, if_pos hc] at hmem
    exact hfv n v' hmem
  · rw [fallbackStep, if_neg hc] at hmem
    rcases mem_dictSet _ _ _ _ hmem with he | hm
    · have : FieldValue.attr v' =
          FieldValue.attr (.str (resolver event eventData eventDataStream eventTag k)) := by
        simpa using congrArg Prod.snd he
      cases this
      rfl
    · exact hfv n v' hm

/-! ## Claim C6 -/

/-- C6: a successful `GetFieldValues` never stores an identifier-typed or
timestamp-like value (including a non-empty list whose first element is
timestamp-like) in the field mapping, and consequently every line of the
Reserved/Additional sections arises from a mapping binding whose value is
not of an excluded kind; the final conjunct places those section lists
inside the rendered output. -/
theorem c6_structural_exclusion (resolver : FallbackFieldResolver) (event : EventRecord)
    (eventData : EventData) (eventDataStream : Option EventDataStream)
    (eventTag : Option EventTag) (r : CollectResult)
    (hok : GetFieldValues resolver event eventData eventDataStream eventTag = .ok r) :
    (∀ n v', (n, FieldValue.attr v') ∈ r.fieldValues → isSkippedValue v' = false) ∧
      (∀ (R : List String) (line : String),
        line ∈ (buildAttributeLists R (sortedItems r.fieldValues) ([], [])).1 ++
          (buildAttributeLists R (sortedItems r.fieldValues) ([], [])).2 →
        ∃ n v, (n, v) ∈ r.fieldValues ∧ line = fieldLine n v ∧
          ∀ v', v = FieldValue.attr v' → isSkippedValue v' = false) ∧
      ∀ (R ls : List String), WriteFieldValuesLines R r.fieldValues = some ls →
        ∃ pre suffix, ls = pre ++ ["", "[Reserved attributes]:"] ++
          (buildAttributeLists R (sortedItems r.fieldValues) ([], [])).1 ++
          ["", "[Additional attributes]:"] ++
          (buildAttributeLists R (sortedItems r.fieldValues) ([], [])).2 ++ suffix ++ [""] := by
  suffices hinv : ∀ n v', (n, FieldValue.attr v') ∈ r.fieldValues →
      isSkippedValue v' = false by
    refine ⟨hinv, ?_, ?_⟩
    · intro R line hline
      rw [buildAttributeLists_eq] at hline
      simp only [List.nil_append, List.mem_append] at hline
      rcases hline with h | h
      all_goals
        rcases List.mem_map.mp h with ⟨p, hpfilter, hl⟩
        have hpsorted : p ∈ sortedItems r.fieldValues := (List.mem_filter.mp hpfilter).1
        have hpfv : p ∈ r.fieldValues :=
          ((List.perm_insertionSort leName r.fieldValues).mem_iff).mp hpsorted
        refine ⟨p.1, p.2, hpfv, hl.symm, ?_⟩
        intro v' hv'
        refine hinv p.1 v' ?_
        rw [← hv']
        exact hpfv
    · intro R ls hls
      exact writeFieldValuesLines_shape R _ ls hls
  simp only [GetFieldValues] at hok
  rcases hid : event.identifier with _ | idS
  · rw [hid] at hok
    simp at hok
  · rw [hid] at hok
    rcases hts : copyToDateTimeStringISO8601 event.timestamp with _ | tsS
    · rw [hts] at hok
      simp at hok
    · rw [hts] at hok
      rcases hsort : pySortedPairs (combinedAttributes eventData eventDataStream) with _ | l
      · rw [hsort] at hok
        simp at hok
      · rw [hsort] at hok
        injection hok with hr
        subst hr
        have hseed : ∀ n v', (n, FieldValue.attr v') ∈
            ([("_event_identifier", .attr (.str idS)),
              ("_timestamp", .attr (.str tsS))] : FieldMapping) →
            isSkippedValue v' = false := by
          intro n v' h
          simp only [List.mem_cons, List.not_mem_nil, or_false] at h
          rcases h with h | h
          all_goals
            have h2 := congrArg Prod.snd h
            simp only at h2
            injection h2 with h3
            rw [h3]
            rfl
        have hP := processAttributes_not_skipped eventData.data_type l _ [] hseed
        have hF1 := fallbackStep_not_skipped resolver event eventData eventDataStream
          eventTag ((processAttributes eventData.data_type l
            [("_event_identifier", .attr (.str idS)), ("_timestamp", .attr (.str tsS))]
            []).1, []) "display_name" hP
        have hF2 := fallbackStep_not_skipped resolver event eventData eventDataStream
          eventTag _ "filename" hF1
        have hF3 := fallbackStep_not_skipped resolver event eventData eventDataStream
          eventTag _ "inode" hF2
        rcases eventTag with _ | tag
        · exact hF3
        · intro n v' hm
          rcases mem_dictSet _ _ _ _ hm with he | hm2
          · have h2 := congrArg Prod.snd he
            simp at h2
          · exact hF3 n v' hm2

/-- Witness for C6: a record carrying one timestamp-like and one plain
attribute; the mapping retains only the plain value, and the theorem
certifies its kind at the concrete binding. -/
theorem c6_witness :
    GetFieldValues (fun _ _ _ _ _ => "") ⟨some "i", some 0⟩
        ⟨"t", [("when", .dateTime 7), ("name_attr", .str "x")]⟩ none none =
      .ok ⟨[("_event_identifier", .attr (.str "i")),
        ("_timestamp", .attr (.str "1970-01-01T00:00:00.000000+00:00")),
        ("name_attr", .attr (.str "x")),
        ("display_name", .attr (.str "")), ("filename", .attr (.str "")),
        ("inode", .attr (.str ""))], [], ["display_name", "filename", "inode"]⟩ ∧
      isSkippedValue (.str "x") = false := by
  constructor
  · rfl
  · exact (c6_structural_exclusion (fun _ _ _ _ _ => "") ⟨some "i", some 0⟩
      ⟨"t", [("when", .dateTime 7), ("name_attr", .str "x")]⟩ none none
      ⟨[("_event_identifier", .attr (.str "i")),
        ("_timestamp", .attr (.str "1970-01-01T00:00:00.000000+00:00")),
        ("name_attr", .attr (.str "x")),
        ("display_name", .attr (.str "")), ("filename", .attr (.str "")),
        ("inode", .attr (.str ""))], [], ["display_name", "filename", "inode"]⟩ rfl).1
      "name_attr" (.str "x") (by simp)

/-- Witness for C10 at a concrete record with no attributes and an
empty-string resolver. -/
theorem c10_witness :
    (match GetFieldValues (fun _ _ _ _ _ => "") ⟨some "i", some 0⟩ ⟨"t", []⟩ none none with
      | .ok r => dictContains r.fieldValues "display_name" &&
          dictContains r.fieldValues "filename" && dictContains r.fieldValues "inode" &&
          dictContains r.fieldValues "_event_identifier" &&
          dictContains r.fieldValues "_timestamp"
      | .error _ => false) = true := by
  have hok : GetFieldValues (fun _ _ _ _ _ => "") ⟨some "i", some 0⟩ ⟨"t", []⟩ none none =
      .ok ⟨[("_event_identifier", .attr (.str "i")),
        ("_timestamp", .attr (.str "1970-01-01T00:00:00.000000+00:00")),
        ("display_name", .attr (.str "")), ("filename", .attr (.str "")),
        ("inode", .attr (.str ""))], [], ["display_name", "filename", "inode"]⟩ := rfl
  obtain ⟨h1, h2, h3, h4, h5, _⟩ := c10_mandatory_fields (fun _ _ _ _ _ => "")
    ⟨some "i", some 0⟩ ⟨"t", []⟩ none none _ hok
  rw [hok]
  simp [h1, h2, h3, h4, h5]

/-! ## UTF-8 decoder step equations and the lossless-decode theorem -/

theorem decode_ascii (b1 : Nat) (rest : List Nat) (h : b1 < 128) :
    utf8DecodeReplaceAux (b1 :: rest) = Char.ofNat b1 :: utf8DecodeReplaceAux rest := by
  rw [utf8DecodeReplaceAux.eq_def]
  simp [h]

theorem decode_2byte (v : Nat) (rest : List Nat) (hlo : 128 ≤ v) (hhi : v < 2048) :
    utf8DecodeReplaceAux ((192 + v / 64) :: (128 + v % 64) :: rest) =
      Char.ofNat v :: utf8DecodeReplaceAux rest := by
  rw [utf8DecodeReplaceAux.eq_def]
  have c1 : ¬(192 + v / 64 < 128) := by omega
  have c2 : (decide (194 ≤ 192 + v / 64) && decide (192 + v / 64 ≤ 223)) = true := by
    simp only [Bool.and_eq_true, decide_eq_true_eq]
    omega
  have c3 : isCont (128 + v % 64) = true := by
    simp only [isCont, Bool.and_eq_true, decide_eq_true_eq]
    omega
  have hval : (192 + v / 64 - 192) * 64 + (128 + v % 64 - 128) = v := by omega
  simp only [c1, c2, c3, if_true, if_false, ite_true, ite_false, hval]

theorem decode_3byte (v : Nat) (rest : List Nat) (hlo : 2048 ≤ v) (hhi : v < 65536)
    (hsurr : v < 55296 ∨ 57344 ≤ v) :
    utf8DecodeReplaceAux
        ((224 + v / 4096) :: (128 + v / 64 % 64) :: (128 + v % 64) :: rest) =
      Char.ofNat v :: utf8DecodeReplaceAux rest := by
  rw [utf8DecodeReplaceAux.eq_def]
  have c1 : ¬(224 + v / 4096 < 128) := by omega
  have c2 : (decide (194 ≤ 224 + v / 4096) && decide (224 + v / 4096 ≤ 223)) = false := by
    simp only [Bool.and_eq_false_iff, decide_eq_false_iff_not]
    omega
  have c3 : (decide (224 ≤ 224 + v / 4096) && decide (224 + v / 4096 ≤ 239)) = true := by
    simp only [Bool.and_eq_true, decide_eq_true_eq]
    omega
  have c4 : utf8Cont3Ok (224 + v / 4096) (128 + v / 64 % 64) = true := by
    simp only [utf8Cont3Ok, isCont]
    split_ifs with hb1 hb2
    · simp only [Bool.and_eq_true, decide_eq_true_eq]
      omega
    · simp only [Bool.and_eq_true, decide_eq_true_eq]
      omega
    · simp only [Bool.and_eq_true, decide_eq_true_eq]
      omega
  have c5 : isCont (128 + v % 64) = true := by
    simp only [isCont, Bool.and_eq_true, decide_eq_true_eq]
    omega
  have hval : (224 + v / 4096 - 224) * 4096 + (128 + v / 64 % 64 - 128) * 64 +
      (128 + v % 64 - 128) = v := by omega
  simp only [c1, c2, c3, c4, c5, Bool.false_eq_true, if_true, if_false, ite_true, ite_false, hval]

theorem decode_4byte (v : Nat) (rest : List Nat) (hlo : 65536 ≤ v) (hhi : v < 1114112) :
    utf8DecodeReplaceAux
        ((240 + v / 262144) :: (128 + v / 4096 % 64) :: (128 + v / 64 % 64) ::
          (128 + v % 64) :: rest) =
      Char.ofNat v :: utf8DecodeReplaceAux rest := by
  rw [utf8DecodeReplaceAux.eq_def]
  have c1 : ¬(240 + v / 262144 < 128) := by omega
  have c2 : (decide (194 ≤ 240 + v / 262144) && decide (240 + v / 262144 ≤ 223)) = false := by
    simp only [Bool.and_eq_false_iff, decide_eq_false_iff_not]
    omega
  have c3 : (decide (224 ≤ 240 + v / 262144) && decide (240 + v / 262144 ≤ 239)) = false := by
    simp only [Bool.and_eq_false_iff, decide_eq_false_iff_not]
    omega
  have c4 : (decide (240 ≤ 240 + v / 262144) && decide (240 + v / 262144 ≤ 244)) = true := by
    simp only [Bool.and_eq_true, decide_eq_true_eq]
    omega
  have c5 : utf8Cont4Ok (240 + v / 262144) (128 + v / 4096 % 64) = true := by
    simp only [utf8Cont4Ok, isCont]
    split_ifs with hb1 hb2
    · simp only [Bool.and_eq_true, decide_eq_true_eq]
      omega
    · simp only [Bool.and_eq_true, decide_eq_true_eq]
      omega
    · simp only [Bool.and_eq_true, decide_eq_true_eq]
      omega
  have c6 : isCont (128 + v / 64 % 64) = true := by
    simp only [isCont, Bool.and_eq_true, decide_eq_true_eq]
    omega
  have c7 : isCont (128 + v % 64) = true := by
    simp only [isCont, Bool.and_eq_true, decide_eq_true_eq]
    omega
  have hval : (240 + v / 262144 - 240) * 262144 + (128 + v / 4096 % 64 - 128) * 4096 +
      (128 + v / 64 % 64 - 128) * 64 + (128 + v % 64 - 128) = v := by omega
  simp only [c1, c2, c3, c4, c5, c6, c7, Bool.false_eq_true, if_true, if_false, ite_true, ite_false, hval]


theorem utf8DecodeReplaceAux_encodeChar (c : Char) (bs : List Nat) :
    utf8DecodeReplaceAux (utf8EncodeChar c ++ bs) = c :: utf8DecodeReplaceAux bs := by
  have hofnat := Char.ofNat_toNat c
  have hvalid : c.toNat < 55296 ∨ (57344 ≤ c.toNat ∧ c.toNat < 1114112) := c.valid
  by_cases h1 : c.toNat < 128
  · simp only [utf8EncodeChar, h1, if_true, ite_true, List.cons_append, List.nil_append]
    rw [decode_ascii _ _ h1, hofnat]
  · by_cases h2 : c.toNat < 2048
    · simp only [utf8EncodeChar, h1, h2, if_true, if_false, ite_true, ite_false,
        List.cons_append, List.nil_append]
      rw [decode_2byte _ _ (by omega) h2, hofnat]
    · by_cases h3 : c.toNat < 65536
      · simp only [utf8EncodeChar, h1, h2, h3, if_true, if_false, ite_true, ite_false,
          List.cons_append, List.nil_append]
        rw [decode_3byte _ _ (by omega) h3 (by rcases hvalid with h | h <;> omega), hofnat]
      · simp only [utf8EncodeChar, h1, h2, h3, if_true, if_false, ite_true, ite_false,
          List.cons_append, List.nil_append]
        rw [decode_4byte _ _ (by omega) (by rcases hvalid with h | h <;> omega), hofnat]

theorem utf8DecodeReplaceAux_encode (l : List Char) :
    utf8DecodeReplaceAux ((l.map utf8EncodeChar).flatten) = l := by
  induction l with
  | nil =>
    simp only [List.map_nil, List.flatten_nil]
    rw [utf8DecodeReplaceAux.eq_def]
  | cons c cs ih =>
    simp only [List.map_cons, List.flatten_cons]
    rw [utf8DecodeReplaceAux_encodeChar, ih]


/-! ## Warnings and stored values of the attribute loop (for C7) -/

/-- The warning events emitted by the attribute loop: exactly one per
bytes-valued attribute pair, in processing order, naming the attribute
and the event data's data type and carrying the recovered value. -/
theorem processAttributes_warnings (dataType : String) :
    ∀ (l : List (String × AttrValue)) (fv : FieldMapping) (ws : List Warning),
      (processAttributes dataType l fv ws).2 = ws ++ l.filterMap (fun p =>
        match p.2 with
        | AttrValue.bytes bs => some ⟨p.1, dataType, utf8DecodeReplace bs⟩
        | _ => none) := by
  intro l
  induction l with
  | nil =>
    intro fv ws
    simp [processAttributes]
  | cons p rest ih =>
    intro fv ws
    obtain ⟨m, w⟩ := p
    by_cases hs : isSkippedValue w
    · have hhead : (match w with
          | AttrValue.bytes bs => some (⟨m, dataType, utf8DecodeReplace bs⟩ : Warning)
          | _ => none) = none := by
        cases w <;> first | rfl | simp [isSkippedValue] at hs
      rw [processAttributes_cons_skipped _ _ _ _ _ _ hs, ih]
      simp [List.filterMap_cons, hhead]
    · by_cases hb : isBytesValue w
      · rcases w with _ | _ | bs | _ | _ | _ | _ <;> simp [isBytesValue] at hb
        rw [processAttributes_cons_bytes, ih]
        simp [List.filterMap_cons]
      · have hhead : (match w with
            | AttrValue.bytes bs => some (⟨m, dataType, utf8DecodeReplace bs⟩ : Warning)
            | _ => none) = none := by
          cases w <;> first | rfl | simp [isBytesValue] at hb
        rw [processAttributes_cons_plain _ _ _ _ _ _ (by simpa using hs) (by simpa using hb),
          ih]
        simp [List.filterMap_cons, hhead]

theorem processAttributes_dictGet_of_filter_nil (dataType : String) :
    ∀ (l : List (String × AttrValue)) (fv : FieldMapping) (ws : List Warning) (n : String),
      List.filter (fun p => p.1 == n) l = [] →
      dictGet (processAttributes dataType l fv ws).1 n = dictGet fv n := by
  intro l
  induction l with
  | nil =>
    intro fv ws n _
    simp [processAttributes]
  | cons p rest ih =>
    intro fv ws n hfilter
    obtain ⟨m, w⟩ := p
    have hmn : (m == n) = false := by
      by_cases h : (m == n) = true
      · rw [List.filter_cons] at hfilter
        simp [h] at hfilter
      · simpa using h
    have hrest : List.filter (fun p => p.1 == n) rest = [] := by
      rw [List.filter_cons] at hfilter
      simpa [hmn] using hfilter
    have hne : n ≠ m := by
      intro he
      rw [he] at hmn
      simp at hmn
    by_cases hs : isSkippedValue w
    · rw [processAttributes_cons_skipped _ _ _ _ _ _ hs]
      exact ih fv ws n hrest
    · by_cases hb : isBytesValue w
      · rcases w with _ | _ | bs | _ | _ | _ | _ <;> simp [isBytesValue] at hb
        rw [processAttributes_cons_bytes, ih _ _ _ hrest, dictGet_dictSet]
        simp [hne]
      · rw [processAttributes_cons_plain _ _ _ _ _ _ (by simpa using hs) (by simpa using hb),
          ih _ _ _ hrest, dictGet_dictSet]
        simp [hne]

/-- When `n` occurs exactly once among the attribute pairs and carries a
bytes value, the loop stores the UTF-8/replace decoding of that value
under `n`. -/
theorem processAttributes_dictGet_unique_bytes (dataType : String) :
    ∀ (l : List (String × AttrValue)) (fv : FieldMapping) (ws : List Warning)
      (n : String) (bs : List Nat),
      List.filter (fun p => p.1 == n) l = [(n, AttrValue.bytes bs)] →
      dictGet (processAttributes dataType l fv ws).1 n =
        some (.attr (.str (utf8DecodeReplace bs))) := by
  intro l
  induction l with
  | nil =>
    intro fv ws n bs hfilter
    simp at hfilter
  | cons p rest ih =>
    intro fv ws n bs hfilter
    obtain ⟨m, w⟩ := p
    rw [List.filter_cons] at hfilter
    by_cases hmn : (m == n) = true
    · simp only [hmn, if_true] at hfilter
      have hpair : (m, w) = (n, AttrValue.bytes bs) := (List.cons_eq_cons.mp hfilter).1
      have hrest : List.filter (fun p => p.1 == n) rest = [] :=
        (List.cons_eq_cons.mp hfilter).2
      have hm : m = n := congrArg Prod.fst hpair
      have hw : w = AttrValue.bytes bs := congrArg Prod.snd hpair
      subst hm
      subst hw
      rw [processAttributes_cons_bytes,
        processAttributes_dictGet_of_filter_nil _ _ _ _ _ hrest, dictGet_dictSet]
      simp
    · simp only [hmn, Bool.false_eq_true, if_false] at hfilter
      by_cases hs : isSkippedValue w
      · rw [processAttributes_cons_skipped _ _ _ _ _ _ hs]
        exact ih fv ws n bs hfilter
      · by_cases hb : isBytesValue w
        · rcases w with _ | _ | bs2 | _ | _ | _ | _ <;> simp [isBytesValue] at hb
          rw [processAttributes_cons_bytes]
          exact ih _ _ n bs hfilter
        · rw [processAttributes_cons_plain _ _ _ _ _ _ (by simpa using hs)
            (by simpa using hb)]
          exact ih _ _ n bs hfilter

/-! ## Claim C7 -/

/-- C7: for a successful `GetFieldValues`, the emitted warnings are
exactly one per bytes-valued attribute pair (in sorted processing order),
each naming the attribute and the record's data type; a uniquely-named
bytes attribute is stored as its UTF-8/replace decoding (a string, which
the renderer's `!s` conversion always accepts); and decoding is lossless
on valid UTF-8: decoding the encoding of any string gives the string
back.  Bytes values never make the collector fail: the collector fails
only on the conditions of `c2_amended_error_iff`, none of which involve
bytes values. -/
theorem c7_bytes_decoding (resolver : FallbackFieldResolver) (event : EventRecord)
    (eventData : EventData) (eventDataStream : Option EventDataStream)
    (eventTag : Option EventTag) (r : CollectResult)
    (hok : GetFieldValues resolver event eventData eventDataStream eventTag = .ok r) :
    (∃ l, pySortedPairs (combinedAttributes eventData eventDataStream) = some l ∧
      r.warnings = l.filterMap (fun p =>
        match p.2 with
        | AttrValue.bytes bs => some ⟨p.1, eventData.data_type, utf8DecodeReplace bs⟩
        | _ => none) ∧
      ∀ n bs, n ≠ "_event_tag_labels" →
        List.filter (fun p => p.1 == n) l = [(n, AttrValue.bytes bs)] →
        dictGet r.fieldValues n = some (.attr (.str (utf8DecodeReplace bs)))) ∧
      ∀ s : String, utf8DecodeReplace (utf8Encode s) = s := by
  refine ⟨?_, ?_⟩
  · simp only [GetFieldValues] at hok
    rcases hid : event.identifier with _ | idS
    · rw [hid] at hok
      simp at hok
    · rw [hid] at hok
      rcases hts : copyToDateTimeStringISO8601 event.timestamp with _ | tsS
      · rw [hts] at hok
        simp at hok
      · rw [hts] at hok
        rcases hsort : pySortedPairs (combinedAttributes eventData eventDataStream)
          with _ | l
        · rw [hsort] at hok
          simp at hok
        · rw [hsort] at hok
          injection hok with hr
          subst hr
          refine ⟨l, rfl, ?_, ?_⟩
          · simpa using processAttributes_warnings eventData.data_type l
              [("_event_identifier", .attr (.str idS)), ("_timestamp", .attr (.str tsS))] []
          intro n bs hn hfilter
          have hproc := processAttributes_dictGet_unique_bytes eventData.data_type l
            [("_event_identifier", .attr (.str idS)), ("_timestamp", .attr (.str tsS))]
            [] n bs hfilter
          have h1 := dictGet_fallbackStep_of_some resolver event eventData eventDataStream
            eventTag ((processAttributes eventData.data_type l
              [("_event_identifier", .attr (.str idS)), ("_timestamp", .attr (.str tsS))]
              []).1, ([] : List String)) "display_name" n _ hproc
          have h2 := dictGet_fallbackStep_of_some resolver event eventData eventDataStream
            eventTag _ "filename" n _ h1
          have h3 := dictGet_fallbackStep_of_some resolver event eventData eventDataStream
            eventTag _ "inode" n _ h2
          rcases eventTag with _ | tag
          · exact h3
          · rw [dictGet_dictSet]
            simpa [hn] using h3
  · intro s
    unfold utf8DecodeReplace utf8Encode
    rw [utf8DecodeReplaceAux_encode]

/-- Witness for C7 at a record with one bytes attribute (`0x41 0xFF` —
invalid UTF-8 decoded with one replacement character) showing the stored
value and the single warning, plus a concrete lossless decode. -/
theorem c7_witness :
    (match GetFieldValues (fun _ _ _ _ _ => "") ⟨some "i", some 0⟩
        ⟨"t", [("blob", .bytes [65, 255])]⟩ none none with
      | .ok r => some (r.warnings.length, dictGet r.fieldValues "blob")
      | .error _ => none) =
      some (1, some (.attr (.str (utf8DecodeReplace [65, 255])))) ∧
      utf8DecodeReplace (utf8Encode "héllo") = "héllo" := by
  constructor
  · rfl
  · exact (c7_bytes_decoding (fun _ _ _ _ _ => "") ⟨some "i", some 0⟩
      ⟨"t", []⟩ none none _ rfl).2 "héllo"

/-! ## Claim C5 -/

/-- C5 is false as stated: the attribute name `filename` is present among
the raw EventData attributes, yet because its value is timestamp-like the
loop skips it, and the fallback resolver **is** invoked for `filename`
(the recorded call list is exactly the three fallback names). -/
theorem c5_counterexample :
    "filename" ∈ (combinedAttributes ⟨"t", [("filename", .dateTime 5)]⟩ none).map Prod.fst ∧
      (match GetFieldValues (fun _ _ _ _ _ => "") ⟨some "i", some 0⟩
          ⟨"t", [("filename", .dateTime 5)]⟩ none none with
        | .ok r => r.fallbackCalls
        | .error _ => []) = ["display_name", "filename", "inode"] :=
  ⟨by simp [combinedAttributes], rfl⟩

/-- C5 (amended): whenever an attribute named `n` is present among the
raw attributes of EventData or EventDataStream **with a value the loop
retains** (not identifier-typed or timestamp-like — the skipped kinds
never reach the mapping), a successful `GetFieldValues` never invokes the
fallback resolver for `n`; in particular this holds for `display_name`,
`filename` and `inode`. -/
theorem c5_amended_no_fallback_when_retained (resolver : FallbackFieldResolver)
    (event : EventRecord) (eventData : EventData)
    (eventDataStream : Option EventDataStream) (eventTag : Option EventTag)
    (n : String) (v : AttrValue) (r : CollectResult)
    (hmem : (n, v) ∈ combinedAttributes eventData eventDataStream)
    (hskip : isSkippedValue v = false)
    (hok : GetFieldValues resolver event eventData eventDataStream eventTag = .ok r) :
    n ∉ r.fallbackCalls := by
  simp only [GetFieldValues] at hok
  rcases hid : event.identifier with _ | idS
  · rw [hid] at hok
    simp at hok
  · rw [hid] at hok
    rcases hts : copyToDateTimeStringISO8601 event.timestamp with _ | tsS
    · rw [hts] at hok
      simp at hok
    · rw [hts] at hok
      rcases hsort : pySortedPairs (combinedAttributes eventData eventDataStream) with _ | l
      · rw [hsort] at hok
        simp at hok
      · rw [hsort] at hok
        injection hok with hr
        subst hr
        have hmeml : (n, v) ∈ l :=
          ((pySortedPairs_perm _ l hsort).mem_iff).mpr hmem
        have hcontains := processAttributes_contains_of_mem eventData.data_type l
          [("_event_identifier", .attr (.str idS)), ("_timestamp", .attr (.str tsS))]
          [] n v hmeml hskip
        have hstep1 := fallbackStep_keeps resolver event eventData eventDataStream eventTag
          ((processAttributes eventData.data_type l
            [("_event_identifier", .attr (.str idS)), ("_timestamp", .attr (.str tsS))]
            []).1, ([] : List String)) "display_name" n hcontains (by simp)
        have hstep2 := fallbackStep_keeps resolver event eventData eventDataStream eventTag
          _ "filename" n hstep1.1 hstep1.2
        have hstep3 := fallbackStep_keeps resolver event eventData eventDataStream eventTag
          _ "inode" n hstep2.1 hstep2.2
        exact hstep3.2

/-- Witness for the amended C5: `filename` carried with a retained string
value; the recorded fallback calls omit `filename`. -/
theorem c5_amended_witness :
    "filename" ∉ (match GetFieldValues (fun _ _ _ _ _ => "") ⟨some "i", some 0⟩
        ⟨"t", [("filename", .str "f.txt")]⟩ none none with
      | .ok r => r.fallbackCalls
      | .error _ => []) := by
  rcases hok : GetFieldValues (fun _ _ _ _ _ => "") ⟨some "i", some 0⟩
      ⟨"t", [("filename", .str "f.txt")]⟩ none none with e | r
  · simp [hok]
  · simpa [hok] using c5_amended_no_fallback_when_retained (fun _ _ _ _ _ => "")
      ⟨some "i", some 0⟩ ⟨"t", [("filename", .str "f.txt")]⟩ none none
      "filename" (.str "f.txt") r (by simp [combinedAttributes]) rfl hok

/-- Witness for C4 at the empty reserved-name set and the constant-empty
resolver. -/
theorem c4_witness :
    ∃ r, GetFieldValues (fun _ _ _ _ _ => "") ⟨some "i", some 1704067200000000⟩
        ⟨"test:dt", [("size", .int 10), ("name_attr", .str "x")]⟩ none none = .ok r ∧
      WriteFieldValuesLines [] r.fieldValues =
        some [separatorLine, "[Timestamp]:", "  2024-01-01T00:00:00.000000+00:00", "",
          "[Reserved attributes]:", "", "[Additional attributes]:",
          "  \x7bdisplay_name\x7d ", "  \x7bfilename\x7d ", "  \x7binode\x7d ",
          "  \x7bname_attr\x7d x", "  \x7bsize\x7d 10", ""] :=
  c4_end_to_end [] (fun _ _ _ _ _ => "") rfl rfl rfl rfl rfl (fun _ _ _ _ _ => rfl)

/-! ## Order facts for the render-time sort (for C8) -/

theorem charCompare_lt_iff (a b : Char) : charCompare a b = .lt ↔ a.toNat < b.toNat := by
  unfold charCompare
  split_ifs with h1 h2 <;> simp_all

theorem charCompare_gt_iff (a b : Char) : charCompare a b = .gt ↔ b.toNat < a.toNat := by
  unfold charCompare
  split_ifs with h1 h2 <;> simp_all
  omega

theorem charCompare_eq_iff_nat (a b : Char) : charCompare a b = .eq ↔ a.toNat = b.toNat := by
  unfold charCompare
  split_ifs with h1 h2 <;> simp_all <;> omega

theorem charCompare_swap (a b : Char) : (charCompare a b).swap = charCompare b a := by
  rcases Nat.lt_trichotomy a.toNat b.toNat with h | h | h
  · rw [(charCompare_lt_iff a b).mpr h, (charCompare_gt_iff b a).mpr h]
    rfl
  · rw [(charCompare_eq_iff_nat a b).mpr h, (charCompare_eq_iff_nat b a).mpr h.symm]
    rfl
  · rw [(charCompare_gt_iff a b).mpr h, (charCompare_lt_iff b a).mpr h]
    rfl

theorem charListCompare_swap (a : List Char) :
    ∀ b : List Char, (charListCompare a b).swap = charListCompare b a := by
  induction a with
  | nil =>
    intro b
    cases b <;> rfl
  | cons x xs ih =>
    intro b
    cases b with
    | nil => rfl
    | cons y ys =>
      rw [charListCompare, charListCompare]
      have hswap := charCompare_swap x y
      rcases hxy : charCompare x y with _ | _ | _ <;> rw [hxy] at hswap
      · rw [← hswap]
        rfl
      · rw [← hswap]
        exact ih ys
      · rw [← hswap]
        rfl

theorem charCompare_eq_iff (a b : Char) : charCompare a b = .eq ↔ a = b := by
  rw [charCompare_eq_iff_nat]
  constructor
  · intro h
    calc a = Char.ofNat a.toNat := (Char.ofNat_toNat a).symm
      _ = Char.ofNat b.toNat := by rw [h]
      _ = b := Char.ofNat_toNat b
  · intro h
    rw [h]

theorem charListCompare_eq_iff (a : List Char) :
    ∀ b : List Char, charListCompare a b = .eq ↔ a = b := by
  induction a with
  | nil =>
    intro b
    cases b <;> simp [charListCompare]
  | cons x xs ih =>
    intro b
    cases b with
    | nil => simp [charListCompare]
    | cons y ys =>
      rw [charListCompare]
      rcases hc : charCompare x y with _ | _ | _
      · simp only [reduceCtorEq, false_iff]
        intro h
        rw [List.cons_eq_cons] at h
        rw [(charCompare_eq_iff x y).mpr h.1] at hc
        exact absurd hc (by simp)
      · rw [ih ys]
        rw [charCompare_eq_iff] at hc
        subst hc
        simp
      · simp only [reduceCtorEq, false_iff]
        intro h
        rw [List.cons_eq_cons] at h
        rw [(charCompare_eq_iff x y).mpr h.1] at hc
        exact absurd hc (by simp)

theorem charListCompare_trans_lt (a : List Char) :
    ∀ b c : List Char, charListCompare a b = .lt → charListCompare b c = .lt →
      charListCompare a c = .lt := by
  induction a with
  | nil =>
    intro b c h1 h2
    cases c with
    | nil =>
      cases b with
      | nil => exact h2
      | cons y ys => simp [charListCompare] at h2
    | cons z zs => simp [charListCompare]
  | cons x xs ih =>
    intro b c h1 h2
    cases b with
    | nil => simp [charListCompare] at h1
    | cons y ys =>
      cases c with
      | nil => simp [charListCompare] at h2
      | cons z zs =>
        rw [charListCompare] at h1 h2 ⊢
        rcases hxy : charCompare x y with _ | _ | _ <;> rw [hxy] at h1
        · rcases hyz : charCompare y z with _ | _ | _ <;> rw [hyz] at h2
          · have hxz : charCompare x z = .lt := by
              rw [charCompare_lt_iff] at hxy hyz ⊢
              omega
            rw [hxz]
          · rw [charCompare_eq_iff] at hyz
            subst hyz
            rw [hxy]
          · simp at h2
        · rw [charCompare_eq_iff] at hxy
          subst hxy
          rcases hxz : charCompare x z with _ | _ | _
          · rfl
          · rw [hxz] at h2
            simp only [] at h1 h2 ⊢
            exact ih ys zs h1 h2
          · rw [hxz] at h2
            simp at h2
        · simp at h1

theorem pyStrLe_total (a b : String) : pyStrLe a b = true ∨ pyStrLe b a = true := by
  unfold pyStrLe pyStrCompare
  rcases h : charListCompare a.data b.data with _ | _ | _
  · exact Or.inl rfl
  · exact Or.inl rfl
  · right
    have hswap := charListCompare_swap a.data b.data
    rw [h] at hswap
    rw [← hswap]
    rfl

theorem pyStrLe_trans (a b c : String) (h1 : pyStrLe a b = true)
    (h2 : pyStrLe b c = true) : pyStrLe a c = true := by
  unfold pyStrLe pyStrCompare at h1 h2 ⊢
  rcases hab : charListCompare a.data b.data with _ | _ | _ <;> rw [hab] at h1
  · rcases hbc : charListCompare b.data c.data with _ | _ | _ <;> rw [hbc] at h2
    · rw [charListCompare_trans_lt _ _ _ hab hbc]
    · rw [charListCompare_eq_iff] at hbc
      rw [← hbc, hab]
    · simp at h2
  · rw [charListCompare_eq_iff] at hab
    rw [hab]
    exact h2
  · simp at h1

theorem pyStrCompare_lt_asymm (a b : String) (h1 : pyStrCompare a b = .lt)
    (h2 : pyStrCompare b a = .lt) : False := by
  unfold pyStrCompare at h1 h2
  have hswap := charListCompare_swap a.data b.data
  rw [h1, h2] at hswap
  simp [Ordering.swap] at hswap

theorem pyStrLe_ne_lt (a b : String) (h1 : pyStrLe a b = true) (h2 : a ≠ b) :
    pyStrCompare a b = .lt := by
  unfold pyStrLe at h1
  rcases h : pyStrCompare a b with _ | _ | _
  · rfl
  · exfalso
    unfold pyStrCompare at h
    rw [charListCompare_eq_iff] at h
    apply h2
    cases a
    cases b
    exact congrArg String.mk (by simpa using h)
  · rw [h] at h1
    simp at h1


instance : IsTotal (String × FieldValue) leName :=
  ⟨fun a b => pyStrLe_total a.1 b.1⟩

instance : IsTrans (String × FieldValue) leName :=
  ⟨fun _ _ _ h1 h2 => pyStrLe_trans _ _ _ h1 h2⟩

instance : IsAntisymm (String × FieldValue) ltName :=
  ⟨fun a b h1 h2 => (pyStrCompare_lt_asymm a.1 b.1 h1 h2).elim⟩

instance : DecidableRel ltName :=
  fun _ _ => inferInstanceAs (Decidable (_ = _))

theorem sortedItems_pairwise_lt (fv : FieldMapping) (hnd : (dictKeys fv).Nodup) :
    List.Pairwise ltName (sortedItems fv) := by
  have hs : List.Pairwise leName (sortedItems fv) := List.sorted_insertionSort leName fv
  have hperm : (sortedItems fv).Perm fv := List.perm_insertionSort leName fv
  have hnd2 : (dictKeys (sortedItems fv)).Nodup := by
    unfold dictKeys at hnd ⊢
    exact (hperm.map Prod.fst).nodup_iff.mpr hnd
  have hne : List.Pairwise (fun p q : String × FieldValue => p.1 ≠ q.1) (sortedItems fv) := by
    unfold dictKeys at hnd2
    exact List.pairwise_map.mp hnd2
  exact (hs.and hne).imp fun h => pyStrLe_ne_lt _ _ h.1 h.2

theorem sortedItems_perm_eq (fv fv2 : FieldMapping) (h : fv.Perm fv2)
    (hnd : (dictKeys fv).Nodup) : sortedItems fv = sortedItems fv2 := by
  have hnd2 : (dictKeys fv2).Nodup := (h.map Prod.fst).nodup_iff.mp hnd
  have hp : (sortedItems fv).Perm (sortedItems fv2) :=
    (List.perm_insertionSort leName fv).trans
      (h.trans (List.perm_insertionSort leName fv2).symm)
  exact List.eq_of_perm_of_sorted hp (sortedItems_pairwise_lt fv hnd)
    (sortedItems_pairwise_lt fv2 hnd2)

theorem dictGet_perm (fv fv2 : FieldMapping) (h : fv.Perm fv2) :
    (dictKeys fv).Nodup → ∀ k, dictGet fv k = dictGet fv2 k := by
  induction h with
  | nil =>
    intro _ k
    rfl
  | cons x l12 ih =>
    intro hnd k
    have hnd2 : (dictKeys _).Nodup := (List.nodup_cons.mp (by simpa [dictKeys] using hnd)).2
    by_cases hx : x.1 == k
    · simp [dictGet, List.find?, hx]
    · have := ih (by simpa [dictKeys] using hnd2) k
      simpa [dictGet, List.find?, hx] using this
  | swap x y l =>
    intro hnd k
    have hxy : y.1 ≠ x.1 := by
      have h1 : (dictKeys (y :: x :: l)).Nodup := hnd
      simp [dictKeys] at h1
      exact h1.1.1
    by_cases hx : x.1 == k <;> by_cases hy : y.1 == k
    · exfalso
      have hx2 : x.1 = k := by simpa using hx
      have hy2 : y.1 = k := by simpa using hy
      exact hxy (hy2.trans hx2.symm)
    · simp [dictGet, List.find?, hx, hy]
    · simp [dictGet, List.find?, hx, hy]
    · simp [dictGet, List.find?, hx, hy]
  | trans h1 h2 ih1 ih2 =>
    intro hnd k
    have hndmid := (h1.map Prod.fst).nodup_iff.mp (by simpa [dictKeys] using hnd)
    rw [ih1 (by simpa [dictKeys] using hnd) k, ih2 (by simpa [dictKeys] using hndmid) k]

theorem writeFieldValuesLines_congr (R : List String) (fv fv2 : FieldMapping)
    (hs : sortedItems fv = sortedItems fv2) (hg : ∀ k, dictGet fv k = dictGet fv2 k) :
    WriteFieldValuesLines R fv = WriteFieldValuesLines R fv2 := by
  unfold WriteFieldValuesLines pathspecLines tagSuffix
  rw [hs, hg "_timestamp", hg "path_spec", hg "_event_tag_labels"]

/-! ## Claim C8 -/

/-- C8: for a field mapping with unique keys (a Python dict), the sorted
items are strictly increasing by attribute name, so in either rendered
section any name `A < B` has its line before `B`'s (the section lists are
order-preserving projections of the sorted items, as the second conjunct
makes explicit), and the rendered output is invariant under any
permutation of the mapping's insertion order. -/
theorem c8_sort_invariant (R : List String) (fv : FieldMapping)
    (hnd : (dictKeys fv).Nodup) :
    List.Pairwise ltName (sortedItems fv) ∧
      buildAttributeLists R (sortedItems fv) ([], []) =
        (((sortedItems fv).filter
            (fun p => !structuralKeys.contains p.1 && R.contains p.1)).map
          (fun p => fieldLine p.1 p.2),
         ((sortedItems fv).filter
            (fun p => !structuralKeys.contains p.1 && !R.contains p.1)).map
          (fun p => fieldLine p.1 p.2)) ∧
      List.Pairwise ltName ((sortedItems fv).filter
        (fun p => !structuralKeys.contains p.1 && R.contains p.1)) ∧
      List.Pairwise ltName ((sortedItems fv).filter
        (fun p => !structuralKeys.contains p.1 && !R.contains p.1)) ∧
      ∀ fv2, fv.Perm fv2 → WriteFieldValues R fv = WriteFieldValues R fv2 := by
  have hpw := sortedItems_pairwise_lt fv hnd
  refine ⟨hpw, ?_, hpw.filter _, hpw.filter _, ?_⟩
  · rw [buildAttributeLists_eq]
    simp
  · intro fv2 hperm
    unfold WriteFieldValues
    rw [writeFieldValuesLines_congr R fv fv2 (sortedItems_perm_eq fv fv2 hperm hnd)
      (dictGet_perm fv fv2 hperm hnd)]

/-- Witness for C8: a three-entry mapping and a transposition of it; the
sorted items are strictly name-increasing and the rendered text is
unchanged. -/
theorem c8_witness :
    List.Pairwise ltName (sortedItems
      [("b", FieldValue.attr (.str "1")), ("_timestamp", FieldValue.attr (.str "T")),
       ("a", FieldValue.attr (.str "2"))]) ∧
      WriteFieldValues ["b"]
          [("b", FieldValue.attr (.str "1")), ("_timestamp", FieldValue.attr (.str "T")),
           ("a", FieldValue.attr (.str "2"))] =
        WriteFieldValues ["b"]
          [("_timestamp", FieldValue.attr (.str "T")), ("b", FieldValue.attr (.str "1")),
           ("a", FieldValue.attr (.str "2"))] := by
  obtain ⟨h1, _, _, _, h5⟩ := c8_sort_invariant ["b"]
    [("b", FieldValue.attr (.str "1")), ("_timestamp", FieldValue.attr (.str "T")),
     ("a", FieldValue.attr (.str "2"))] (by decide)
  exact ⟨h1, h5 _ (List.Perm.swap _ _ _)⟩


end Plaso
